import Mathlib

/-!
# igrow: atom model, ligand ordering and the offspring-generation tasks

A shallow embedding of `src/atom.hpp`, `src/common.hpp`, `src/ligand.hpp` and
`src/operation.cpp`, followed by theorems about the embedded code.

Conventions.
* `double` / `fl` values are exact rationals (`ℚ`); `size_t` values are natural
  numbers, reduced modulo `SIZE_T_MOD` where the source arithmetic can wrap.
* A C array read `table[i]` is `table[i]?`: an index outside the table has no
  value.
-/

namespace igrow

/-! ## atom.hpp -/

/-- Polar hydrogen, i.e. bonded to a hetero atom. -/
def AD_TYPE_HD : Nat := 0
/-- Non-polar hydrogen, i.e. bonded to carbon. -/
def AD_TYPE_H : Nat := 1
/-- Carbon, not in a ring. -/
def AD_TYPE_C : Nat := 2
/-- Carbon, in a ring. -/
def AD_TYPE_A : Nat := 3
/-- Nitrogen, not a hydrogen bond acceptor. -/
def AD_TYPE_N : Nat := 4
/-- Nitrogen, a hydrogen bond acceptor. -/
def AD_TYPE_NA : Nat := 5
/-- Oxygen, a hydrogen bond acceptor. -/
def AD_TYPE_OA : Nat := 6
/-- Sulfur, a hydrogen bond acceptor. -/
def AD_TYPE_SA : Nat := 7
/-- Sulfur, not a hydrogen bond acceptor. -/
def AD_TYPE_S : Nat := 8
/-- Selenium. -/
def AD_TYPE_Se : Nat := 9
/-- Phosphorus. -/
def AD_TYPE_P : Nat := 10
/-- Fluorine. -/
def AD_TYPE_F : Nat := 11
/-- Chlorine. -/
def AD_TYPE_Cl : Nat := 12
/-- Bromine. -/
def AD_TYPE_Br : Nat := 13
/-- Iodine. -/
def AD_TYPE_I : Nat := 14
/-- Number of supported AutoDock4 atom types. -/
def AD_TYPE_SIZE : Nat := 15

/-- AutoDock4 atom type names. -/
def ad_type_strings : List String :=
  ["HD", "H", "C", "A", "N", "NA", "OA", "SA", "S", "Se", "P", "F", "Cl", "Br", "I"]

/-- AutoDock4 covalent radii. -/
def ad_covalent_radii : List ℚ :=
  [37/100, 37/100, 77/100, 77/100, 75/100, 75/100, 73/100, 102/100, 102/100,
   116/100, 106/100, 71/100, 99/100, 114/100, 133/100]

/-- AutoDock4 atomic weights. -/
def ad_atomic_weights : List ℚ :=
  [1008/1000, 1008/1000, 1201/100, 1201/100, 1401/100, 1401/100, 1600/100,
   3207/100, 3207/100, 7896/100, 3097/100, 1900/100, 3545/100, 7990/100, 12690/100]

/-- The `for` loop of `parse_ad_type_string`: `n` iterations remain and the loop
variable is `i`.  When they are used up the function returns `AD_TYPE_SIZE`. -/
def parse_ad_type_string_loop (ad_type_string : String) : Nat → Nat → Nat
  | 0, _ => AD_TYPE_SIZE
  | n + 1, i =>
    if ad_type_strings[i]? = some ad_type_string then i
    else parse_ad_type_string_loop ad_type_string n (i + 1)

/-- Parses AutoDock4 atom type name, and returns `AD_TYPE_SIZE` if it does not
match any supported AutoDock4 atom types.  The loop runs `i = 0 .. AD_TYPE_SIZE - 1`. -/
def parse_ad_type_string (ad_type_string : String) : Nat :=
  parse_ad_type_string_loop ad_type_string AD_TYPE_SIZE 0

/-- Represents an atom. -/
structure atom where
  /-- Atom name. -/
  name : String
  /-- Columns from 1-based [13, 30] of an ATOM/HETATM line in PDBQT format. -/
  columns_13_to_30 : String
  /-- Columns from 1-based [55, 79] of an ATOM/HETATM line in PDBQT format. -/
  columns_55_to_79 : String
  /-- Serial number. -/
  srn : Nat
  /-- 3D coordinate, `array<double, 3>`. -/
  coordinate : Fin 3 → ℚ
  /-- AutoDock4 atom type. -/
  ad : Nat

/-- Returns the square of a generic value (`common.hpp`). -/
def sqr (x : ℚ) : ℚ := x * x

/-- Modelled from the spec: `distance_sqr` of `vec3.hpp`, which is not among the
sources; the squared Euclidean distance, i.e. the sum of the squared coordinate
differences. -/
def distance_sqr (a b : Fin 3 → ℚ) : ℚ :=
  sqr (a 0 - b 0) + sqr (a 1 - b 1) + sqr (a 2 - b 2)

namespace atom

/-- Returns covalent radius from an AutoDock4 atom type. -/
def covalent_radius (a : atom) : Option ℚ := ad_covalent_radii[a.ad]?

/-- Returns atomic weight from an AutoDock4 atom type. -/
def atomic_weight (a : atom) : Option ℚ := ad_atomic_weights[a.ad]?

/-- Returns true if the current atom is a hydrogen. -/
def is_hydrogen (a : atom) : Bool := decide (a.ad ≤ AD_TYPE_H)

/-- Returns true if the current atom is a halogen. -/
def is_halogen (a : atom) : Bool := decide (AD_TYPE_F ≤ a.ad) && decide (a.ad ≤ AD_TYPE_I)

/-- Returns true if the current atom is a mutable atom. -/
def is_mutable (a : atom) : Bool := a.is_hydrogen || a.is_halogen

/-- Returns true is the current atom is a hydrogen bond donor, i.e. polar hydrogen.
The source is `!ad`, true exactly when `ad` is zero. -/
def is_hb_donor (a : atom) : Bool := decide (a.ad = 0)

/-- Returns true is the current atom is a hydrogen bond acceptor. -/
def is_hb_acceptor (a : atom) : Bool := decide (AD_TYPE_NA ≤ a.ad) && decide (a.ad ≤ AD_TYPE_SA)

/-- Returns true if the current atom is covalently bonded to a given atom.  The
source's `assert(this != &a)` compares object addresses and is not part of the
returned value; the result is undefined (`none`) when either radius lookup is. -/
def is_neighbor (self a : atom) : Option Bool :=
  match self.covalent_radius, a.covalent_radius with
  | some r1, some r2 =>
    some (decide (distance_sqr self.coordinate a.coordinate < sqr (11/10 * (r1 + r2))))
  | _, _ => none

end atom

/-! ## ligand.hpp -/

/-- Represents a ROOT or a BRANCH in PDBQT structure. -/
structure frame where
  /-- Frame array index pointing to the parent of current frame. -/
  parent : Nat
  /-- Index pointing to the parent frame atom which forms a rotatable bond. -/
  rotorX : Nat
  /-- Child branches. -/
  branches : List Nat
  /-- Heavy atoms. -/
  atoms : List atom

/-- Represents the index to a hydrogen or a halogen together with the index to its
neighbor heavy atom. -/
structure mutation_point where
  frame : Nat
  point : Nat
  neighbor : Nat

/-- Represents a ligand. -/
structure ligand where
  /-- The path to the fragment. -/
  p : String
  /-- Ligand frames. -/
  frames : List frame
  /-- Hydrogens or halogens. -/
  mutation_points : List mutation_point
  /-- Number of heavy atoms. -/
  num_heavy_atoms : Nat
  /-- Number of hydrogen bond donors. -/
  num_hb_donors : Nat
  /-- Number of hydrogen bond acceptors. -/
  num_hb_acceptors : Nat
  /-- Molecular weight. -/
  mw : ℚ
  /-- Predicted LogP obtained by external XLOGP3. -/
  logp : ℚ
  /-- Predicted free energy obtained by external docking. -/
  free_energy : ℚ
  /-- Ligand efficacy. -/
  efficacy : ℚ

/-- The `operator<` of `ligand`, for sorting `ptr_vector<ligand>`. -/
def ligand.lt (self lig : ligand) : Bool := decide (self.efficacy < lig.efficacy)

/-! ## operation.cpp

`operation.hpp`, the `ligand` interface used by the tasks (feasibility guards,
`mutable_atoms`, `num_rotatable_bonds`, the operator constructors, `save`) and
the Boost random library are not among the sources.  The tasks are embedded
over an arbitrary ligand type `L`, path type `P` and engine type `E`; what they
read from their surroundings is collected in `operation`. -/

/-- One more than the largest `size_t` value, for the 64-bit platforms on which
`mt19937eng` is `boost::random::mt19937_64`. -/
def SIZE_T_MOD : Nat := 2 ^ 64

/-- Unsigned subtraction `a - b` on `size_t`. -/
def size_t_sub (a b : Nat) : Nat := (a + SIZE_T_MOD - b % SIZE_T_MOD) % SIZE_T_MOD

/-- Pre-increment `++n` on `size_t`. -/
def size_t_incr (n : Nat) : Nat := (n + 1) % SIZE_T_MOD

/-- The read-only members of `operation` that the tasks use, together with the
ligand and random-number interfaces they call. -/
structure operation (L P E : Type) where
  /-- Number of elite ligands at the front of `ligands`. -/
  num_elitists : Nat
  /-- The fragment paths, `fragments[i]`. -/
  fragments : Nat → P
  /-- Number of fragments. -/
  num_fragments : Nat
  /-- The validator `v`. -/
  v : L → Bool
  /-- The failure budget compared with `num_failures`. -/
  max_failures : Nat
  /-- The flyweight factory: the shared ligand parsed from a fragment path. -/
  ligand_flyweight : P → L
  addition_feasible : L → Bool
  subtraction_feasible : L → Bool
  crossover_feasible : L → Bool
  /-- The value of `mutable_atoms.size()`. -/
  mutable_atoms_size : L → Nat
  num_rotatable_bonds : L → Nat
  /-- The constructor `ligand(p, l1, l2, g1, g2)`. -/
  addition : P → L → L → Nat → Nat → L
  /-- The constructor `ligand(p, l1, g1)`. -/
  subtraction : P → L → Nat → L
  /-- The constructor `ligand(p, l1, l2, g1, g2, true)`. -/
  crossover : P → L → L → Nat → Nat → L
  /-- The constructor `mt19937eng eng(seed)`. -/
  mt19937eng : Nat → E
  /-- One call of a `variate_generator` over `uniform_int_distribution<size_t>(lo, hi)`:
  the value drawn and the engine afterwards. -/
  uniform_int : Nat → Nat → E → Nat × E

/-- What a task's loop body reads and writes: the population `ligands` (a member
of `operation`, shared by all tasks), the task's own engine, and four history
lists that record what the task did. -/
structure task_state (L E : Type) where
  /-- The population, `ligands[i]`. -/
  ligands : Nat → L
  /-- The task-local Mersenne Twister engine. -/
  eng : E
  /-- History: every value drawn from the engine, in order. -/
  draws : List Nat
  /-- History: every candidate constructed by the task, in order. -/
  built : List L
  /-- History: every ligand on which `save()` was called, in order. -/
  saved : List L
  /-- History: every pair of a parent ligand and the site index drawn for it that
  was passed to an operator constructor, in order. -/
  sites : List (L × Nat)

/-- What a task leaves behind: the final `task_state` and the value of the member
`num_failures`. -/
structure outcome (L E : Type) where
  state : task_state L E
  num_failures : Nat

variable {L P E : Type}

/-- One call `gen()` of a generator bound to the engine by reference: return the
drawn value and advance the engine. -/
def draw (op : operation L P E) (lo hi : Nat) (s : task_state L E) : Nat × task_state L E :=
  ((op.uniform_int lo hi s.eng).1,
   { s with eng := (op.uniform_int lo hi s.eng).2,
            draws := s.draws ++ [(op.uniform_int lo hi s.eng).1] })

/-- The assignment `l = ligands[j]` through the reference `ligand& l` bound to the
slot `i`: the slot `i` receives a copy of `ligands[j]`. -/
def assign_through (s : task_state L E) (i j : Nat) : task_state L E :=
  { s with ligands := Function.update s.ligands i (s.ligands j) }

/-- The statement `ligands.replace(index, new ligand(...))` for the constructed
candidate `c`; `sites` lists the parents and site indices the constructor was
given. -/
def replace (s : task_state L E) (index : Nat) (c : L) (sites : List (L × Nat)) :
    task_state L E :=
  { s with ligands := Function.update s.ligands index c, built := s.built ++ [c],
           sites := s.sites ++ sites }

/-- The `while` loop of `addition_task`, lines 38-42.  `i1` is the slot the
reference `l1` is bound to, `l2` is the local copy of the fragment ligand.  At
most `fuel` iterations are run. -/
def addition_redraw (op : operation L P E) :
    Nat → Nat → L → task_state L E → Option (L × task_state L E)
  | fuel, i1, l2, s =>
    if (op.addition_feasible (s.ligands i1) && op.addition_feasible l2) = true then some (l2, s)
    else match fuel with
      | 0 => none
      | fuel + 1 =>
        let d1 := draw op 0 (size_t_sub op.num_elitists 1) s
        let s1 := assign_through d1.2 i1 d1.1
        let d2 := draw op 0 (size_t_sub op.num_fragments 1) s1
        addition_redraw op fuel i1 (op.ligand_flyweight (op.fragments d2.1)) d2.2

/-- The body of the `do` loop of `addition_task` up to and including
`ligands.replace`, lines 36-48. -/
def addition_attempt (op : operation L P E) (index : Nat) (p : P) (fuel : Nat)
    (s : task_state L E) : Option (task_state L E) :=
  let d1 := draw op 0 (size_t_sub op.num_elitists 1) s
  let d2 := draw op 0 (size_t_sub op.num_fragments 1) d1.2
  match addition_redraw op fuel d1.1 (op.ligand_flyweight (op.fragments d2.1)) d2.2 with
  | none => none
  | some (l2, s3) =>
    let l1 := s3.ligands d1.1
    let g1 := draw op 0 (size_t_sub (op.mutable_atoms_size l1) 1) s3
    let g2 := draw op 0 (size_t_sub (op.mutable_atoms_size l2) 1) g1.2
    some (replace g2.2 index (op.addition p l1 l2 g1.1 g2.1) [(l1, g1.1), (l2, g2.1)])

/-- The `while` loop of `subtraction_task`, lines 73-76. -/
def subtraction_redraw (op : operation L P E) :
    Nat → Nat → task_state L E → Option (task_state L E)
  | fuel, i1, s =>
    if op.subtraction_feasible (s.ligands i1) = true then some s
    else match fuel with
      | 0 => none
      | fuel + 1 =>
        let d1 := draw op 0 (size_t_sub op.num_elitists 1) s
        subtraction_redraw op fuel i1 (assign_through d1.2 i1 d1.1)

/-- The body of the `do` loop of `subtraction_task` up to and including
`ligands.replace`, lines 72-81. -/
def subtraction_attempt (op : operation L P E) (index : Nat) (p : P) (fuel : Nat)
    (s : task_state L E) : Option (task_state L E) :=
  let d1 := draw op 0 (size_t_sub op.num_elitists 1) s
  match subtraction_redraw op fuel d1.1 d1.2 with
  | none => none
  | some s2 =>
    let l1 := s2.ligands d1.1
    let g1 := draw op 1 (op.num_rotatable_bonds l1) s2
    some (replace g1.2 index (op.subtraction p l1 g1.1) [(l1, g1.1)])

/-- The `while` loop of `crossover_task`, lines 107-111.  `i1` and `i2` are the
slots the references `l1` and `l2` are bound to. -/
def crossover_redraw (op : operation L P E) :
    Nat → Nat → Nat → task_state L E → Option (task_state L E)
  | fuel, i1, i2, s =>
    if (op.crossover_feasible (s.ligands i1) && op.crossover_feasible (s.ligands i2)) = true then some s
    else match fuel with
      | 0 => none
      | fuel + 1 =>
        let d1 := draw op 0 (size_t_sub op.num_elitists 1) s
        let s1 := assign_through d1.2 i1 d1.1
        let d2 := draw op 0 (size_t_sub op.num_elitists 1) s1
        crossover_redraw op fuel i1 i2 (assign_through d2.2 i2 d2.1)

/-- The body of the `do` loop of `crossover_task` up to and including
`ligands.replace`, lines 105-117. -/
def crossover_attempt (op : operation L P E) (index : Nat) (p : P) (fuel : Nat)
    (s : task_state L E) : Option (task_state L E) :=
  let d1 := draw op 0 (size_t_sub op.num_elitists 1) s
  let d2 := draw op 0 (size_t_sub op.num_elitists 1) d1.2
  match crossover_redraw op fuel d1.1 d2.1 d2.2 with
  | none => none
  | some s3 =>
    let l1 := s3.ligands d1.1
    let l2 := s3.ligands d2.1
    let g1 := draw op 1 (op.num_rotatable_bonds l1) s3
    let g2 := draw op 1 (op.num_rotatable_bonds l2) g1.2
    some (replace g2.2 index (op.crossover p l1 l2 g1.1 g2.1) [(l1, g1.1), (l2, g2.1)])

/-- The `do { ... } while (++num_failures < max_failures)` loop shared, line for
line, by the three tasks: run the body `attempt`; if the validator accepts
`ligands[index]`, save it and return; otherwise increment `num_failures` and
repeat while it is below `max_failures`.  At most `fuel` iterations are run. -/
def retry (op : operation L P E) (attempt : task_state L E → Option (task_state L E))
    (index : Nat) : Nat → Nat → task_state L E → Option (outcome L E)
  | 0, _, _ => none
  | fuel + 1, num_failures, s =>
    match attempt s with
    | none => none
    | some s1 =>
      if op.v (s1.ligands index) = true then
        some ⟨{ s1 with saved := s1.saved ++ [s1.ligands index] }, num_failures⟩
      else if size_t_incr num_failures < op.max_failures then
        retry op attempt index fuel (size_t_incr num_failures) s1
      else some ⟨s1, size_t_incr num_failures⟩

/-- The state in which a task starts: the population as it stands, a fresh engine
`eng(seed)`, empty histories. -/
def task_start (op : operation L P E) (seed : Nat) (ligands : Nat → L) : task_state L E :=
  { ligands := ligands, eng := op.mt19937eng seed, draws := [], built := [], saved := [],
    sites := [] }

/-- The task `operation::addition_task(index, p, seed)`, run on the population
`ligands` and the counter value `num_failures`; every loop runs at most `fuel`
iterations, and the result is `none` when that does not suffice. -/
def addition_task (op : operation L P E) (fuel index : Nat) (p : P) (seed : Nat)
    (ligands : Nat → L) (num_failures : Nat) : Option (outcome L E) :=
  retry op (addition_attempt op index p fuel) index fuel num_failures (task_start op seed ligands)

/-- The task `operation::subtraction_task(index, p, seed)`. -/
def subtraction_task (op : operation L P E) (fuel index : Nat) (p : P) (seed : Nat)
    (ligands : Nat → L) (num_failures : Nat) : Option (outcome L E) :=
  retry op (subtraction_attempt op index p fuel) index fuel num_failures (task_start op seed ligands)

/-- The task `operation::crossover_task(index, p, seed)`. -/
def crossover_task (op : operation L P E) (fuel index : Nat) (p : P) (seed : Nat)
    (ligands : Nat → L) (num_failures : Nat) : Option (outcome L E) :=
  retry op (crossover_attempt op index p fuel) index fuel num_failures (task_start op seed ligands)

/-- The three kinds of task. -/
inductive task_kind where
  | addition
  | subtraction
  | crossover
  deriving DecidableEq

/-- The loop body of the task of the given kind. -/
def attempt (k : task_kind) (op : operation L P E) (index : Nat) (p : P) (fuel : Nat) :
    task_state L E → Option (task_state L E) :=
  match k with
  | .addition => addition_attempt op index p fuel
  | .subtraction => subtraction_attempt op index p fuel
  | .crossover => crossover_attempt op index p fuel

/-- The task of the given kind. -/
def task (k : task_kind) (op : operation L P E) (fuel index : Nat) (p : P) (seed : Nat)
    (ligands : Nat → L) (num_failures : Nat) : Option (outcome L E) :=
  match k with
  | .addition => addition_task op fuel index p seed ligands num_failures
  | .subtraction => subtraction_task op fuel index p seed ligands num_failures
  | .crossover => crossover_task op fuel index p seed ligands num_failures

/-- The states a task can be in at the top of its `do` loop: `reaches k op index p s t`
holds when `t` results from `s` by running the loop body some number of times in
a row, each run having left a candidate in the destination slot that the
validator rejects. -/
inductive reaches (k : task_kind) (op : operation L P E) (index : Nat) (p : P)
    (s : task_state L E) : task_state L E → Prop where
  | start : reaches k op index p s s
  | next (t u : task_state L E) (n : Nat) : reaches k op index p s t →
      attempt k op index p n t = some u → op.v (u.ligands index) = false →
      reaches k op index p s u

/-- The legal range of a site index `x.2` for the parent `x.1` it is applied to:
below `mutable_atoms.size()` in `addition_task`, within
`[1, num_rotatable_bonds]` in `subtraction_task` and `crossover_task`. -/
def site_in_range (k : task_kind) (op : operation L P E) (x : L × Nat) : Prop :=
  match k with
  | .addition => x.2 < op.mutable_atoms_size x.1
  | .subtraction => 1 ≤ x.2 ∧ x.2 ≤ op.num_rotatable_bonds x.1
  | .crossover => 1 ≤ x.2 ∧ x.2 ≤ op.num_rotatable_bonds x.1

/-- Replaying the generator: starting from the engine `e`, draw once from each of
the ranges `(lo, hi)` in turn; the values drawn, in order, and the engine
afterwards. -/
def replay (op : operation L P E) : List (Nat × Nat) → E → List Nat × E
  | [], e => ([], e)
  | r :: rs, e =>
    ((op.uniform_int r.1 r.2 e).1 :: (replay op rs (op.uniform_int r.1 r.2 e).2).1,
     (replay op rs (op.uniform_int r.1 r.2 e).2).2)

/-- The draws recorded in `r` are those recorded in `s` followed by the values the
generator gives from the engine of `s` over the ranges `rs`, and the engine of
`r` is the engine after these draws. -/
def draws_from (op : operation L P E) (rs : List (Nat × Nat)) (s r : task_state L E) : Prop :=
  r.draws = s.draws ++ (replay op rs s.eng).1 ∧ r.eng = (replay op rs s.eng).2

/-- The least number of draws in one run of the loop body: two parents or a parent
and a fragment, and their two site indices, in `addition_task` and
`crossover_task`; one parent and its site index in `subtraction_task`. -/
def draws_per_attempt : task_kind → Nat
  | .addition => 4
  | .subtraction => 2
  | .crossover => 4

/-! ## A worked instance

A small ligand type, a counting engine and an `operation` over them, on which the
tasks can be evaluated. -/

/-- A ligand reduced to what the tasks look at: the path it is stored under, its
number of rotatable bonds and its number of mutable atoms. -/
structure ex_ligand where
  path : Nat
  num_rotatable_bonds : Nat
  mutable_atoms : Nat
  deriving DecidableEq

/-- A stand-in generator: the engine is a counter `e`, and a draw from
`uniform_int_distribution(lo, hi)` returns `lo + e % (hi - lo + 1)`, which lies in
`[lo, hi]`, and advances the counter. -/
def ex_uniform_int (lo hi e : Nat) : Nat × Nat := (lo + e % (hi - lo + 1), e + 1)

/-- An `operation` over `ex_ligand`: a ligand is feasible for addition when it has
a mutable atom, and for subtraction and crossover when it has a rotatable bond;
every fragment path `i` holds a one-atom fragment; a child is stored under the
path `p` it is built for. -/
def ex_operation (num_elitists max_failures : Nat) (v : ex_ligand → Bool) :
    operation ex_ligand Nat Nat where
  num_elitists := num_elitists
  fragments := fun i => i
  num_fragments := 1
  v := v
  max_failures := max_failures
  ligand_flyweight := fun f => ⟨f, 0, 1⟩
  addition_feasible := fun l => decide (1 ≤ l.mutable_atoms)
  subtraction_feasible := fun l => decide (1 ≤ l.num_rotatable_bonds)
  crossover_feasible := fun l => decide (1 ≤ l.num_rotatable_bonds)
  mutable_atoms_size := fun l => l.mutable_atoms
  num_rotatable_bonds := fun l => l.num_rotatable_bonds
  addition := fun p l1 l2 _ _ =>
    ⟨p, l1.num_rotatable_bonds + l2.num_rotatable_bonds + 1, l1.mutable_atoms + l2.mutable_atoms - 2⟩
  subtraction := fun p l1 g1 => ⟨p, g1 - 1, l1.mutable_atoms + 1⟩
  crossover := fun p l1 l2 g1 g2 => ⟨p, g1 + (l2.num_rotatable_bonds - g2), l1.mutable_atoms⟩
  mt19937eng := fun seed => seed
  uniform_int := ex_uniform_int

/-- The same `operation` with the three feasibility guards replaced by guards
that every ligand passes. -/
def ex_operation_unguarded (num_elitists max_failures : Nat) (v : ex_ligand → Bool) :
    operation ex_ligand Nat Nat :=
  { ex_operation num_elitists max_failures v with
    addition_feasible := fun _ => true
    subtraction_feasible := fun _ => true
    crossover_feasible := fun _ => true }

/-- A population of four slots: slot 0 holds a ligand with two rotatable bonds
and four mutable atoms, slot 1 a ligand with neither (infeasible for every
operator), slot 2 a ligand with one rotatable bond and two mutable atoms, and
slot 3 (the destination of the examples) an empty placeholder. -/
def ex_ligands : Nat → ex_ligand := fun i =>
  if i = 0 then ⟨100, 2, 4⟩ else if i = 1 then ⟨101, 0, 0⟩ else if i = 2 then ⟨102, 1, 2⟩
  else ⟨0, 0, 0⟩

/-- The first carbon atom of the examples, at the origin. -/
def ex_atom_C0 : atom := ⟨"C1", "", "", 1, ![0, 0, 0], AD_TYPE_C⟩

/-- The second carbon atom of the examples, at distance 1 from `ex_atom_C0`. -/
def ex_atom_C1 : atom := ⟨"C2", "", "", 2, ![1, 0, 0], AD_TYPE_C⟩

/-- The chlorine atom of the examples. -/
def ex_atom_Cl : atom := ⟨"CL", "", "", 3, ![0, 3, 0], AD_TYPE_Cl⟩

/-- The polar hydrogen atom of the examples. -/
def ex_atom_HD : atom := ⟨"HD", "", "", 4, ![0, 0, 1], AD_TYPE_HD⟩

/-- The nitrogen atom of the examples, at the same coordinates as `ex_atom_C0`. -/
def ex_atom_N0 : atom := ⟨"N1", "", "", 5, ![0, 0, 0], AD_TYPE_N⟩

/-! ## Theorems: atom.hpp and ligand.hpp -/

/-- Every valid atom type has a covalent radius in the table, and it is positive. -/
theorem covalent_radius_pos (a : atom) (h : a.ad < AD_TYPE_SIZE) :
    ∃ r, a.covalent_radius = some r ∧ 0 < r := by
  have h15 : a.ad < 15 := h
  unfold atom.covalent_radius ad_covalent_radii
  generalize a.ad = n at h15
  interval_cases n <;> simp

/-- Claim C5: `is_neighbor` is symmetric, for all atoms `a` and `b` and so for all
distinct ones: `a.is_neighbor(b)` and `b.is_neighbor(a)` are the same value. -/
theorem is_neighbor_symmetric (a b : atom) : a.is_neighbor b = b.is_neighbor a := by
  unfold atom.is_neighbor
  cases ha : a.covalent_radius <;> cases hb : b.covalent_radius <;> simp
  have h1 : distance_sqr a.coordinate b.coordinate = distance_sqr b.coordinate a.coordinate := by
    unfold distance_sqr sqr; ring
  rw [h1, add_comm]

/-- Claim C4: for two atoms with valid types, both radius lookups succeed,
`is_neighbor` compares the squared distance with the squared threshold, and its
result is true exactly when the Euclidean distance of the coordinates is
strictly less than 1.1 times the sum of the two covalent radii. -/
theorem is_neighbor_iff_distance (a b : atom) (ha : a.ad < AD_TYPE_SIZE) (hb : b.ad < AD_TYPE_SIZE) :
    ∃ ra rb : ℚ, a.covalent_radius = some ra ∧ b.covalent_radius = some rb ∧
      a.is_neighbor b = some (decide (distance_sqr a.coordinate b.coordinate < sqr (11/10 * (ra + rb)))) ∧
      (a.is_neighbor b = some true ↔
        Real.sqrt (((a.coordinate 0 : ℝ) - b.coordinate 0) ^ 2 + ((a.coordinate 1 : ℝ) - b.coordinate 1) ^ 2
          + ((a.coordinate 2 : ℝ) - b.coordinate 2) ^ 2) < 1.1 * ((ra : ℝ) + rb)) := by
  obtain ⟨ra, hra, hpa⟩ := covalent_radius_pos a ha
  obtain ⟨rb, hrb, hpb⟩ := covalent_radius_pos b hb
  refine ⟨ra, rb, hra, hrb, ?_, ?_⟩
  · simp [atom.is_neighbor, hra, hrb]
  · have hpos : (0 : ℝ) < 1.1 * ((ra : ℝ) + rb) := by
      have h1 : (0 : ℝ) < ra := by exact_mod_cast hpa
      have h2 : (0 : ℝ) < rb := by exact_mod_cast hpb
      positivity
    rw [Real.sqrt_lt' hpos]
    simp only [atom.is_neighbor, hra, hrb, Option.some.injEq, decide_eq_true_eq]
    unfold distance_sqr sqr
    rw [← Rat.cast_lt (K := ℝ)]
    push_cast
    constructor <;> intro h <;> nlinarith [h]

/-- Claim C4 at a concrete input: two carbon atoms at distance 1, which is below
1.1 times the sum 1.54 of their covalent radii. -/
theorem is_neighbor_iff_distance_witness :
    ex_atom_C0.ad < AD_TYPE_SIZE ∧ ex_atom_C1.ad < AD_TYPE_SIZE ∧
    ∃ ra rb : ℚ, ex_atom_C0.covalent_radius = some ra ∧ ex_atom_C1.covalent_radius = some rb ∧
      ex_atom_C0.is_neighbor ex_atom_C1
        = some (decide (distance_sqr ex_atom_C0.coordinate ex_atom_C1.coordinate
            < sqr (11/10 * (ra + rb)))) ∧
      (ex_atom_C0.is_neighbor ex_atom_C1 = some true ↔
        Real.sqrt (((ex_atom_C0.coordinate 0 : ℝ) - ex_atom_C1.coordinate 0) ^ 2
          + ((ex_atom_C0.coordinate 1 : ℝ) - ex_atom_C1.coordinate 1) ^ 2
          + ((ex_atom_C0.coordinate 2 : ℝ) - ex_atom_C1.coordinate 2) ^ 2)
          < 1.1 * ((ra : ℝ) + rb)) :=
  ⟨by decide, by decide, is_neighbor_iff_distance ex_atom_C0 ex_atom_C1 (by decide) (by decide)⟩

/-- The loop started at `i` with `n` iterations left returns the first index in
`[i, i + n)` whose name is `s`, or `AD_TYPE_SIZE` when there is none. -/
theorem parse_loop_spec (s : String) : ∀ n i,
    (parse_ad_type_string_loop s n i = AD_TYPE_SIZE ∧ ∀ j, i ≤ j → j < i + n → ad_type_strings[j]? ≠ some s) ∨
    (i ≤ parse_ad_type_string_loop s n i ∧ parse_ad_type_string_loop s n i < i + n ∧
      ad_type_strings[parse_ad_type_string_loop s n i]? = some s ∧
      ∀ j, i ≤ j → j < parse_ad_type_string_loop s n i → ad_type_strings[j]? ≠ some s) := by
  intro n
  induction n with
  | zero => intro i; left; exact ⟨rfl, fun j h1 h2 => by omega⟩
  | succ n ih =>
    intro i
    unfold parse_ad_type_string_loop
    by_cases h : ad_type_strings[i]? = some s
    · right
      simp only [h, if_true]
      exact ⟨le_refl _, by omega, trivial, fun j h1 h2 => by omega⟩
    · simp only [h, if_false]
      rcases ih (i + 1) with ⟨h1, h2⟩ | ⟨h1, h2, h3, h4⟩
      · left
        refine ⟨h1, fun j hj1 hj2 => ?_⟩
        rcases Nat.eq_or_lt_of_le hj1 with e | l
        · subst e; exact h
        · exact h2 j l (by omega)
      · right
        refine ⟨by omega, by omega, h3, fun j hj1 hj2 => ?_⟩
        rcases Nat.eq_or_lt_of_le hj1 with e | l
        · subst e; exact h
        · exact h4 j l hj2

/-- The fifteen type names are pairwise distinct. -/
theorem ad_type_strings_injective : ∀ i j, i < AD_TYPE_SIZE → j < AD_TYPE_SIZE →
    ad_type_strings[i]? = ad_type_strings[j]? → i = j := by
  intro i j hi hj
  have hi15 : i < 15 := hi
  have hj15 : j < 15 := hj
  interval_cases i <;> interval_cases j <;> simp [ad_type_strings]

/-- Claim C6: `parse_ad_type_string s` returns the index `i < 15` whose name is
`s` when there is one, returns `AD_TYPE_SIZE` exactly when `s` is none of the
fifteen names, and never more than `AD_TYPE_SIZE`; the names are pairwise
distinct, so every name parses back to its own index. -/
theorem parse_ad_type_string_spec (s : String) :
    (∀ i, i < AD_TYPE_SIZE → ad_type_strings[i]? = some s → parse_ad_type_string s = i) ∧
    (parse_ad_type_string s = AD_TYPE_SIZE ↔ ∀ i, i < AD_TYPE_SIZE → ad_type_strings[i]? ≠ some s) ∧
    (parse_ad_type_string s ≤ AD_TYPE_SIZE) ∧
    (∀ i j, i < AD_TYPE_SIZE → j < AD_TYPE_SIZE → ad_type_strings[i]? = ad_type_strings[j]? → i = j) ∧
    (∀ i, i < AD_TYPE_SIZE → ∃ t, ad_type_strings[i]? = some t ∧ parse_ad_type_string t = i) := by
  have key : ∀ t : String, ∀ i, i < AD_TYPE_SIZE → ad_type_strings[i]? = some t → parse_ad_type_string t = i := by
    intro t i hi hs
    rcases parse_loop_spec t AD_TYPE_SIZE 0 with ⟨_, h2⟩ | ⟨_, h2, h3, _⟩
    · exact absurd hs (h2 i (Nat.zero_le _) (by omega))
    · exact (ad_type_strings_injective i _ hi (by simpa using h2) (by rw [hs]; exact h3.symm)).symm
  refine ⟨key s, ?_, ?_, ad_type_strings_injective, ?_⟩
  · constructor
    · intro h i hi hs
      have := key s i hi hs
      omega
    · intro h
      rcases parse_loop_spec s AD_TYPE_SIZE 0 with ⟨h1, _⟩ | ⟨_, h2, h3, _⟩
      · exact h1
      · exact absurd h3 (h _ (by simpa using h2))
  · rcases parse_loop_spec s AD_TYPE_SIZE 0 with ⟨h1, _⟩ | ⟨_, h2, _, _⟩
    · exact le_of_eq h1
    · have : parse_ad_type_string s < AD_TYPE_SIZE := by simpa using h2
      exact le_of_lt this
  · intro i hi
    have hlen : i < ad_type_strings.length := by simpa [ad_type_strings] using hi
    exact ⟨ad_type_strings[i], List.getElem?_eq_getElem hlen, key _ i hi (List.getElem?_eq_getElem hlen)⟩

/-- Claim C6 at concrete inputs: the name `Cl` parses to 12, and a string that is
none of the fifteen names parses to `AD_TYPE_SIZE`. -/
theorem parse_ad_type_string_spec_witness :
    parse_ad_type_string "Cl" = 12 ∧ parse_ad_type_string "Xx" = AD_TYPE_SIZE :=
  ⟨(parse_ad_type_string_spec "Cl").1 12 (by decide) (by decide),
   (parse_ad_type_string_spec "Xx").2.1.2 (by decide)⟩

/-- Claim C7: for an atom with a valid type, `is_mutable` is true exactly for the
types HD, H, F, Cl, Br and I, i.e. exactly for hydrogens and halogens, and false
for C, A, N, NA, OA, SA, S, Se and P. -/
theorem is_mutable_iff (a : atom) (h : a.ad < AD_TYPE_SIZE) :
    (a.is_mutable = true ↔ a.ad ∈ [AD_TYPE_HD, AD_TYPE_H, AD_TYPE_F, AD_TYPE_Cl, AD_TYPE_Br, AD_TYPE_I]) ∧
    (a.is_mutable = true ↔ (a.is_hydrogen = true ∨ a.is_halogen = true)) ∧
    (a.ad ∈ [AD_TYPE_C, AD_TYPE_A, AD_TYPE_N, AD_TYPE_NA, AD_TYPE_OA, AD_TYPE_SA, AD_TYPE_S, AD_TYPE_Se, AD_TYPE_P]
      → a.is_mutable = false) := by
  have h15 : a.ad < 15 := h
  simp only [atom.is_mutable, atom.is_hydrogen, atom.is_halogen, AD_TYPE_HD, AD_TYPE_H, AD_TYPE_F,
    AD_TYPE_Cl, AD_TYPE_Br, AD_TYPE_I, AD_TYPE_C, AD_TYPE_A, AD_TYPE_N, AD_TYPE_NA, AD_TYPE_OA,
    AD_TYPE_SA, AD_TYPE_S, AD_TYPE_Se, AD_TYPE_P]
  generalize a.ad = n at h15
  interval_cases n <;> simp

/-- Claim C7 at a concrete input: a chlorine atom is mutable. -/
theorem is_mutable_iff_witness :
    ex_atom_Cl.ad < AD_TYPE_SIZE ∧
    ((ex_atom_Cl.is_mutable = true ↔
        ex_atom_Cl.ad ∈ [AD_TYPE_HD, AD_TYPE_H, AD_TYPE_F, AD_TYPE_Cl, AD_TYPE_Br, AD_TYPE_I]) ∧
     (ex_atom_Cl.is_mutable = true ↔
        (ex_atom_Cl.is_hydrogen = true ∨ ex_atom_Cl.is_halogen = true)) ∧
     (ex_atom_Cl.ad ∈ [AD_TYPE_C, AD_TYPE_A, AD_TYPE_N, AD_TYPE_NA, AD_TYPE_OA, AD_TYPE_SA,
        AD_TYPE_S, AD_TYPE_Se, AD_TYPE_P] → ex_atom_Cl.is_mutable = false)) :=
  ⟨by decide, is_mutable_iff ex_atom_Cl (by decide)⟩

/-- Claim C8: for an atom with a valid type, `is_hb_donor` is true exactly for the
polar hydrogen type HD, and `is_hb_acceptor` is true exactly for NA, OA and SA;
in particular it is false for N and S. -/
theorem hb_donor_acceptor_iff (a : atom) (h : a.ad < AD_TYPE_SIZE) :
    (a.is_hb_donor = true ↔ a.ad = AD_TYPE_HD) ∧
    (a.is_hb_acceptor = true ↔ a.ad ∈ [AD_TYPE_NA, AD_TYPE_OA, AD_TYPE_SA]) ∧
    (a.ad = AD_TYPE_N ∨ a.ad = AD_TYPE_S → a.is_hb_acceptor = false) := by
  have h15 : a.ad < 15 := h
  simp only [atom.is_hb_donor, atom.is_hb_acceptor, AD_TYPE_HD, AD_TYPE_NA, AD_TYPE_OA, AD_TYPE_SA,
    AD_TYPE_N, AD_TYPE_S]
  generalize a.ad = n at h15
  interval_cases n <;> simp

/-- Claim C8 at a concrete input: a polar hydrogen atom is a donor and no acceptor. -/
theorem hb_donor_acceptor_iff_witness :
    ex_atom_HD.ad < AD_TYPE_SIZE ∧
    ((ex_atom_HD.is_hb_donor = true ↔ ex_atom_HD.ad = AD_TYPE_HD) ∧
     (ex_atom_HD.is_hb_acceptor = true ↔ ex_atom_HD.ad ∈ [AD_TYPE_NA, AD_TYPE_OA, AD_TYPE_SA]) ∧
     (ex_atom_HD.ad = AD_TYPE_N ∨ ex_atom_HD.ad = AD_TYPE_S → ex_atom_HD.is_hb_acceptor = false)) :=
  ⟨by decide, hb_donor_acceptor_iff ex_atom_HD (by decide)⟩

/-- Claim C9: `x < y` on ligands holds exactly when `x.efficacy < y.efficacy`, so it
depends on no other field, and it is irreflexive, asymmetric and transitive. -/
theorem ligand_lt_strict_order :
    (∀ x y : ligand, x.lt y = true ↔ x.efficacy < y.efficacy) ∧
    (∀ x x' y y' : ligand, x.efficacy = x'.efficacy → y.efficacy = y'.efficacy → x.lt y = x'.lt y') ∧
    (∀ x : ligand, x.lt x = false) ∧
    (∀ x y : ligand, x.lt y = true → y.lt x = false) ∧
    (∀ x y z : ligand, x.lt y = true → y.lt z = true → x.lt z = true) := by
  refine ⟨fun x y => by simp [ligand.lt], fun x x' y y' h1 h2 => by simp [ligand.lt, h1, h2],
    fun x => by simp [ligand.lt], fun x y h => ?_, fun x y z h1 h2 => ?_⟩
  · simp only [ligand.lt, decide_eq_true_eq, decide_eq_false_iff_not, not_lt] at h ⊢
    exact le_of_lt h
  · simp only [ligand.lt, decide_eq_true_eq] at h1 h2 ⊢
    exact lt_trans h1 h2

/-- Every valid atom type has an atomic weight in the table, and it is positive. -/
theorem atomic_weight_pos (a : atom) (h : a.ad < AD_TYPE_SIZE) :
    ∃ w, a.atomic_weight = some w ∧ 0 < w := by
  have h15 : a.ad < 15 := h
  unfold atom.atomic_weight ad_atomic_weights
  generalize a.ad = n at h15
  interval_cases n <;> simp

/-- Claim C15: the classification predicates are mutually consistent, for every
atom type and so for every valid one: no atom is both a hydrogen and a halogen;
every hydrogen bond donor is a hydrogen and is mutable; no hydrogen bond acceptor
is mutable, a hydrogen or a halogen; and no atom is both a donor and an
acceptor. -/
theorem classification_consistent (a : atom) :
    ¬ (a.is_hydrogen = true ∧ a.is_halogen = true) ∧
    (a.is_hb_donor = true → a.is_hydrogen = true ∧ a.is_mutable = true) ∧
    (a.is_hb_acceptor = true →
      a.is_mutable = false ∧ a.is_hydrogen = false ∧ a.is_halogen = false) ∧
    ¬ (a.is_hb_donor = true ∧ a.is_hb_acceptor = true) := by
  simp only [atom.is_mutable, atom.is_hydrogen, atom.is_halogen, atom.is_hb_donor,
    atom.is_hb_acceptor, AD_TYPE_H, AD_TYPE_F, AD_TYPE_I, AD_TYPE_NA, AD_TYPE_SA,
    Bool.and_eq_true, Bool.or_eq_true, Bool.or_eq_false_iff, Bool.and_eq_false_imp,
    decide_eq_true_eq, decide_eq_false_iff_not]
  refine ⟨?_, ?_, ?_, ?_⟩ <;> omega

/-- Claim C15 at concrete inputs: the polar hydrogen of the examples is a donor,
a hydrogen and mutable, and no halogen or acceptor. -/
theorem classification_consistent_witness :
    ex_atom_HD.is_hb_donor = true ∧ ex_atom_HD.is_hydrogen = true ∧
    ex_atom_HD.is_mutable = true ∧ ex_atom_HD.is_halogen = false ∧
    ex_atom_HD.is_hb_acceptor = false :=
  have hd : ex_atom_HD.is_hb_donor = true := by decide
  have h := (classification_consistent ex_atom_HD).2.1 hd
  ⟨hd, h.1, h.2, by decide, by decide⟩

/-- Claim C16: for an atom with a valid type both table lookups succeed with a
strictly positive value, so the `is_neighbor` threshold against any other valid
atom is strictly positive and two valid atoms with identical coordinates are
neighbors; both tables have exactly `AD_TYPE_SIZE` entries, so the failure value
`AD_TYPE_SIZE` indexes neither and an atom carrying it has no radius, no weight
and no `is_neighbor` result. -/
theorem radius_weight_in_table (a b : atom) (ha : a.ad < AD_TYPE_SIZE)
    (hb : b.ad < AD_TYPE_SIZE) :
    (∃ ra wa, a.covalent_radius = some ra ∧ 0 < ra ∧ a.atomic_weight = some wa ∧ 0 < wa) ∧
    (∃ ra rb, a.covalent_radius = some ra ∧ b.covalent_radius = some rb ∧
      0 < 11/10 * (ra + rb) ∧ 0 < sqr (11/10 * (ra + rb))) ∧
    (a.coordinate = b.coordinate → a.is_neighbor b = some true) ∧
    ad_covalent_radii.length = AD_TYPE_SIZE ∧ ad_atomic_weights.length = AD_TYPE_SIZE ∧
    ad_covalent_radii[AD_TYPE_SIZE]? = none ∧ ad_atomic_weights[AD_TYPE_SIZE]? = none ∧
    (∀ c : atom, c.ad = AD_TYPE_SIZE → c.covalent_radius = none ∧ c.atomic_weight = none ∧
      c.is_neighbor a = none ∧ a.is_neighbor c = none) := by
  obtain ⟨ra, hra, hpa⟩ := covalent_radius_pos a ha
  obtain ⟨rb, hrb, hpb⟩ := covalent_radius_pos b hb
  obtain ⟨wa, hwa, hpw⟩ := atomic_weight_pos a ha
  have ht : 0 < 11/10 * (ra + rb) := by positivity
  have hs : 0 < sqr (11/10 * (ra + rb)) := by unfold sqr; positivity
  refine ⟨⟨ra, wa, hra, hpa, hwa, hpw⟩, ⟨ra, rb, hra, hrb, ht, hs⟩, fun hc => ?_, rfl, rfl, rfl,
    rfl, fun c hc => ?_⟩
  · have hd : distance_sqr a.coordinate b.coordinate = 0 := by
      rw [hc]; simp [distance_sqr, sqr]
    simp [atom.is_neighbor, hra, hrb, hd, hs]
  · have h1 : c.covalent_radius = none := by
      unfold atom.covalent_radius; rw [hc]; rfl
    have h2 : c.atomic_weight = none := by
      unfold atom.atomic_weight; rw [hc]; rfl
    refine ⟨h1, h2, ?_, ?_⟩
    · simp [atom.is_neighbor, h1]
    · simp [atom.is_neighbor, h1, hra]

/-- Claim C16 at a concrete input: the carbon and the nitrogen atom of the
examples, which have identical coordinates and so are neighbors. -/
theorem radius_weight_in_table_witness :
    ex_atom_C0.ad < AD_TYPE_SIZE ∧ ex_atom_N0.ad < AD_TYPE_SIZE ∧
    ex_atom_C0.coordinate = ex_atom_N0.coordinate ∧
    ex_atom_C0.is_neighbor ex_atom_N0 = some true ∧
    (∃ ra wa, ex_atom_C0.covalent_radius = some ra ∧ 0 < ra ∧
      ex_atom_C0.atomic_weight = some wa ∧ 0 < wa) :=
  ⟨by decide, by decide, rfl,
   (radius_weight_in_table ex_atom_C0 ex_atom_N0 (by decide) (by decide)).2.2.1 rfl,
   (radius_weight_in_table ex_atom_C0 ex_atom_N0 (by decide) (by decide)).1⟩

/-! ## Lemmas: the loops of operation.cpp -/

@[simp]
theorem draw_built (op : operation L P E) (lo hi : Nat) (s : task_state L E) :
    (draw op lo hi s).2.built = s.built := rfl
@[simp]
theorem draw_saved (op : operation L P E) (lo hi : Nat) (s : task_state L E) :
    (draw op lo hi s).2.saved = s.saved := rfl
@[simp]
theorem draw_ligands (op : operation L P E) (lo hi : Nat) (s : task_state L E) :
    (draw op lo hi s).2.ligands = s.ligands := rfl
@[simp]
theorem assign_through_built (s : task_state L E) (i j : Nat) :
    (assign_through s i j).built = s.built := rfl
@[simp]
theorem assign_through_saved (s : task_state L E) (i j : Nat) :
    (assign_through s i j).saved = s.saved := rfl
@[simp]
theorem replace_built (s : task_state L E) (i : Nat) (c : L) (xs : List (L × Nat)) :
    (replace s i c xs).built = s.built ++ [c] := rfl
@[simp]
theorem replace_saved (s : task_state L E) (i : Nat) (c : L) (xs : List (L × Nat)) :
    (replace s i c xs).saved = s.saved := rfl
@[simp]
theorem replace_ligands_index (s : task_state L E) (i : Nat) (c : L) (xs : List (L × Nat)) :
    (replace s i c xs).ligands i = c := by simp [replace]

theorem addition_redraw_mono (op : operation L P E) : ∀ n m i1 l2 (s : task_state L E) r, n ≤ m →
    addition_redraw op n i1 l2 s = some r → addition_redraw op m i1 l2 s = some r := by
  intro n
  induction n with
  | zero =>
    intro m i1 l2 s r _ h
    unfold addition_redraw at h ⊢
    split at h
    · rename_i hc; simpa [hc] using h
    · simp at h
  | succ n ih =>
    intro m i1 l2 s r hle h
    obtain ⟨m, rfl⟩ : ∃ k, m = k + 1 := ⟨m - 1, by omega⟩
    unfold addition_redraw at h ⊢
    split at h
    · rename_i hc; simpa [hc] using h
    · rename_i hc
      simp only [hc, if_false] at h ⊢
      exact ih m _ _ _ _ (by omega) h

theorem addition_redraw_frame (op : operation L P E) : ∀ n i1 l2 (s : task_state L E) r,
    addition_redraw op n i1 l2 s = some r → r.2.built = s.built ∧ r.2.saved = s.saved := by
  intro n
  induction n with
  | zero =>
    intro i1 l2 s r h
    unfold addition_redraw at h
    split at h
    · simp at h; subst h; simp
    · simp at h
  | succ n ih =>
    intro i1 l2 s r h
    unfold addition_redraw at h
    split at h
    · simp at h; subst h; simp
    · have := ih _ _ _ _ h
      simpa using this

theorem subtraction_redraw_mono (op : operation L P E) : ∀ n m i1 (s : task_state L E) r, n ≤ m →
    subtraction_redraw op n i1 s = some r → subtraction_redraw op m i1 s = some r := by
  intro n
  induction n with
  | zero =>
    intro m i1 s r _ h
    unfold subtraction_redraw at h ⊢
    split at h
    · rename_i hc; simpa [hc] using h
    · simp at h
  | succ n ih =>
    intro m i1 s r hle h
    obtain ⟨m, rfl⟩ : ∃ k, m = k + 1 := ⟨m - 1, by omega⟩
    unfold subtraction_redraw at h ⊢
    split at h
    · rename_i hc; simpa [hc] using h
    · rename_i hc
      simp only [hc, if_false] at h ⊢
      exact ih m _ _ _ (by omega) h

theorem subtraction_redraw_frame (op : operation L P E) : ∀ n i1 (s : task_state L E) r,
    subtraction_redraw op n i1 s = some r → r.built = s.built ∧ r.saved = s.saved := by
  intro n
  induction n with
  | zero =>
    intro i1 s r h
    unfold subtraction_redraw at h
    split at h
    · simp at h; subst h; simp
    · simp at h
  | succ n ih =>
    intro i1 s r h
    unfold subtraction_redraw at h
    split at h
    · simp at h; subst h; simp
    · have := ih _ _ _ h
      simpa using this

theorem crossover_redraw_mono (op : operation L P E) : ∀ n m i1 i2 (s : task_state L E) r, n ≤ m →
    crossover_redraw op n i1 i2 s = some r → crossover_redraw op m i1 i2 s = some r := by
  intro n
  induction n with
  | zero =>
    intro m i1 i2 s r _ h
    unfold crossover_redraw at h ⊢
    split at h
    · rename_i hc; simpa [hc] using h
    · simp at h
  | succ n ih =>
    intro m i1 i2 s r hle h
    obtain ⟨m, rfl⟩ : ∃ k, m = k + 1 := ⟨m - 1, by omega⟩
    unfold crossover_redraw at h ⊢
    split at h
    · rename_i hc; simpa [hc] using h
    · rename_i hc
      simp only [hc, if_false] at h ⊢
      exact ih m _ _ _ _ (by omega) h

theorem crossover_redraw_frame (op : operation L P E) : ∀ n i1 i2 (s : task_state L E) r,
    crossover_redraw op n i1 i2 s = some r → r.built = s.built ∧ r.saved = s.saved := by
  intro n
  induction n with
  | zero =>
    intro i1 i2 s r h
    unfold crossover_redraw at h
    split at h
    · simp at h; subst h; simp
    · simp at h
  | succ n ih =>
    intro i1 i2 s r h
    unfold crossover_redraw at h
    split at h
    · simp at h; subst h; simp
    · have := ih _ _ _ _ h
      simpa using this

/-- More fuel does not change what a loop body returns. -/
theorem attempt_mono (k : task_kind) (op : operation L P E) (index : Nat) (p : P) (n m : Nat)
    (s r : task_state L E) (hle : n ≤ m) (h : attempt k op index p n s = some r) :
    attempt k op index p m s = some r := by
  cases k
  · simp only [attempt, addition_attempt] at h ⊢
    split at h
    · simp at h
    · rename_i l2 s3 heq
      rw [addition_redraw_mono op n m _ _ _ _ hle heq]
      exact h
  · simp only [attempt, subtraction_attempt] at h ⊢
    split at h
    · simp at h
    · rename_i s2 heq
      rw [subtraction_redraw_mono op n m _ _ _ hle heq]
      exact h
  · simp only [attempt, crossover_attempt] at h ⊢
    split at h
    · simp at h
    · rename_i s3 heq
      rw [crossover_redraw_mono op n m _ _ _ _ hle heq]
      exact h

/-- A loop body that returns has built exactly one candidate, stored it in the
destination slot, and saved nothing. -/
theorem attempt_effect (k : task_kind) (op : operation L P E) (index : Nat) (p : P) (n : Nat)
    (s r : task_state L E) (h : attempt k op index p n s = some r) :
    r.built = s.built ++ [r.ligands index] ∧ r.saved = s.saved := by
  cases k
  · simp only [attempt, addition_attempt] at h
    split at h
    · simp at h
    · rename_i l2 s3 heq
      have hf := addition_redraw_frame op _ _ _ _ _ heq
      simp only [Option.some.injEq] at h
      subst h
      simpa using hf
  · simp only [attempt, subtraction_attempt] at h
    split at h
    · simp at h
    · rename_i s2 heq
      have hf := subtraction_redraw_frame op _ _ _ _ heq
      simp only [Option.some.injEq] at h
      subst h
      simpa using hf
  · simp only [attempt, crossover_attempt] at h
    split at h
    · simp at h
    · rename_i s3 heq
      have hf := crossover_redraw_frame op _ _ _ _ _ heq
      simp only [Option.some.injEq] at h
      subst h
      simpa using hf

/-- Every task is its `do` loop run on the start state. -/
theorem task_eq_retry (k : task_kind) (op : operation L P E) (fuel index : Nat) (p : P) (seed : Nat)
    (ligands : Nat → L) (nf : Nat) :
    task k op fuel index p seed ligands nf
      = retry op (attempt k op index p fuel) index fuel nf (task_start op seed ligands) := by
  cases k <;> rfl

/-- What a returning `retry` loop has done: it built `rejected ++ [c]`, every
candidate in `rejected` was rejected and followed by an increment that stayed
below `max_failures`, the destination slot holds the last candidate `c`, and
either `c` was accepted and saved, or `c` was rejected too and the increment
after it reached `max_failures`. -/
theorem retry_post (op : operation L P E) (att : task_state L E → Option (task_state L E))
    (index : Nat)
    (heff : ∀ s r, att s = some r → r.built = s.built ++ [r.ligands index] ∧ r.saved = s.saved) :
    ∀ j nf (s : task_state L E) (o : outcome L E), retry op att index j nf s = some o →
    ∃ rejected c, o.state.built = s.built ++ rejected ++ [c] ∧ o.state.ligands index = c ∧
      (∀ r ∈ rejected, op.v r = false) ∧
      (∀ i, i < rejected.length → size_t_incr^[i + 1] nf < op.max_failures) ∧
      ((op.v c = true ∧ o.state.saved = s.saved ++ [c] ∧
          o.num_failures = size_t_incr^[rejected.length] nf) ∨
       (op.v c = false ∧ o.state.saved = s.saved ∧
          o.num_failures = size_t_incr^[rejected.length + 1] nf ∧
          ¬ o.num_failures < op.max_failures)) := by
  intro j
  induction j with
  | zero => intro nf s o h; simp [retry] at h
  | succ j ih =>
    intro nf s o h
    unfold retry at h
    split at h
    · simp at h
    · rename_i s1 hatt
      obtain ⟨hb, hs⟩ := heff s s1 hatt
      by_cases hv : op.v (s1.ligands index) = true
      · rw [if_pos hv, Option.some.injEq] at h
        subst h
        refine ⟨[], s1.ligands index, by simpa using hb, rfl, by simp, by simp, Or.inl ?_⟩
        exact ⟨hv, by simp [hs], rfl⟩
      · rw [if_neg hv] at h
        have hv' : op.v (s1.ligands index) = false := by simpa using hv
        by_cases hc : size_t_incr nf < op.max_failures
        · rw [if_pos hc] at h
          obtain ⟨rej, c, h1, h2, h3, h4, h5⟩ := ih _ _ _ h
          refine ⟨s1.ligands index :: rej, c, ?_, h2, ?_, ?_, ?_⟩
          · rw [h1, hb]; simp
          · intro r hr
            rcases List.mem_cons.1 hr with e | e
            · rw [e]; exact hv'
            · exact h3 r e
          · intro i hi
            cases i with
            | zero => simpa using hc
            | succ i =>
              have := h4 i (by simpa using hi)
              rwa [← Function.iterate_succ_apply] at this
          · rcases h5 with ⟨a, b, c'⟩ | ⟨a, b, c', d⟩
            · left
              refine ⟨a, by rw [b, hs], ?_⟩
              rw [c', ← Function.iterate_succ_apply]; rfl
            · right
              refine ⟨a, by rw [b, hs], ?_, d⟩
              rw [c', ← Function.iterate_succ_apply]; rfl
        · rw [if_neg hc, Option.some.injEq] at h
          subst h
          refine ⟨[], s1.ligands index, by simpa using hb, rfl, by simp, by simp, Or.inr ?_⟩
          exact ⟨hv', hs, rfl, by simpa using hc⟩

/-- Termination of `retry` from a counter value below `max_failures`: at most
`max_failures - nf` iterations follow. -/
theorem retry_terminates_below (op : operation L P E)
    (att : Nat → task_state L E → Option (task_state L E)) (index : Nat)
    (I : task_state L E → Prop)
    (hmono : ∀ n m s r, n ≤ m → att n s = some r → att m s = some r)
    (hstep : ∀ n s r, I s → att n s = some r → op.v (r.ligands index) = false → I r)
    (hterm : ∀ s, I s → ∃ n, (att n s).isSome = true)
    (hmax : op.max_failures < SIZE_T_MOD) :
    ∀ d nf (s : task_state L E), I s → nf < op.max_failures → op.max_failures - nf ≤ d →
    ∃ N, ∀ n, N ≤ n → ∀ j, d ≤ j → (retry op (att n) index j nf s).isSome = true := by
  intro d
  induction d with
  | zero => intro nf s _ h1 h2; omega
  | succ d ih =>
    intro nf s hI h1 h2
    obtain ⟨n0, hn0⟩ := hterm s hI
    obtain ⟨s1, hs1⟩ := Option.isSome_iff_exists.1 hn0
    have hincr : size_t_incr nf = nf + 1 := by
      unfold size_t_incr
      exact Nat.mod_eq_of_lt (by omega)
    by_cases hv : op.v (s1.ligands index) = true
    · refine ⟨n0, fun n hn j hj => ?_⟩
      obtain ⟨j, rfl⟩ : ∃ k, j = k + 1 := ⟨j - 1, by omega⟩
      unfold retry
      simp [hmono n0 n s s1 hn hs1, hv]
    · by_cases hc : nf + 1 < op.max_failures
      · obtain ⟨N, hN⟩ := ih (nf + 1) s1 (hstep n0 s s1 hI hs1 (by simpa using hv)) hc (by omega)
        refine ⟨max n0 N, fun n hn j hj => ?_⟩
        obtain ⟨j, rfl⟩ : ∃ k, j = k + 1 := ⟨j - 1, by omega⟩
        unfold retry
        simp only [hmono n0 n s s1 (le_trans (le_max_left _ _) hn) hs1, hv, if_false, hincr, hc,
          if_true]
        exact hN n (le_trans (le_max_right _ _) hn) j (by omega)
      · refine ⟨n0, fun n hn j hj => ?_⟩
        obtain ⟨j, rfl⟩ : ∃ k, j = k + 1 := ⟨j - 1, by omega⟩
        unfold retry
        simp [hmono n0 n s s1 hn hs1, hv, hincr, hc]

/-- The `retry` loop returns once every loop has enough fuel, whatever the
validator answers and whatever the starting counter value, provided the body
returns from every state satisfying an invariant `I` of the rejected attempts. -/
theorem retry_terminates (op : operation L P E)
    (att : Nat → task_state L E → Option (task_state L E)) (index : Nat)
    (I : task_state L E → Prop)
    (hmono : ∀ n m s r, n ≤ m → att n s = some r → att m s = some r)
    (hstep : ∀ n s r, I s → att n s = some r → op.v (r.ligands index) = false → I r)
    (hterm : ∀ s, I s → ∃ n, (att n s).isSome = true)
    (hmax : op.max_failures < SIZE_T_MOD) (nf : Nat) (s : task_state L E) (hI : I s) :
    ∃ N, ∀ n, N ≤ n → (retry op (att n) index n nf s).isSome = true := by
  obtain ⟨n0, hn0⟩ := hterm s hI
  obtain ⟨s1, hs1⟩ := Option.isSome_iff_exists.1 hn0
  by_cases hv : op.v (s1.ligands index) = true
  · refine ⟨max n0 1, fun n hn => ?_⟩
    obtain ⟨n', hn'⟩ : ∃ k, n = k + 1 := ⟨n - 1, by have := le_trans (le_max_right n0 1) hn; omega⟩
    have hatt := hmono n0 n s s1 (le_trans (le_max_left _ _) hn) hs1
    rw [hn'] at hatt ⊢
    unfold retry
    simp [hatt, hv]
  · by_cases hc : size_t_incr nf < op.max_failures
    · obtain ⟨N, hN⟩ := retry_terminates_below op att index I hmono hstep hterm hmax
        (op.max_failures - size_t_incr nf) (size_t_incr nf) s1
        (hstep n0 s s1 hI hs1 (by simpa using hv)) hc (le_refl _)
      refine ⟨max (max n0 N) (op.max_failures - size_t_incr nf + 1), fun n hn => ?_⟩
      have h1 : n0 ≤ n := le_trans (le_trans (le_max_left _ _) (le_max_left _ _)) hn
      have h2 : N ≤ n := le_trans (le_trans (le_max_right _ _) (le_max_left _ _)) hn
      have h3 : op.max_failures - size_t_incr nf + 1 ≤ n := le_trans (le_max_right _ _) hn
      obtain ⟨n', hn'⟩ : ∃ k, n = k + 1 := ⟨n - 1, by omega⟩
      have hatt := hmono n0 n s s1 h1 hs1
      have hrec := hN n h2 n' (by omega)
      rw [hn'] at hatt
      rw [hn'] at hrec
      rw [hn']
      unfold retry
      simp only [hatt, hv, if_false, hc, if_true]
      exact hrec
    · refine ⟨max n0 1, fun n hn => ?_⟩
      obtain ⟨n', hn'⟩ : ∃ k, n = k + 1 := ⟨n - 1, by have := le_trans (le_max_right n0 1) hn; omega⟩
      have hatt := hmono n0 n s s1 (le_trans (le_max_left _ _) hn) hs1
      rw [hn'] at hatt ⊢
      unfold retry
      simp [hatt, hv, hc]

/-- A task returns once its loops have enough fuel, provided the re-draw loop of
every attempt it can come to returns. -/
theorem task_terminates (k : task_kind) (op : operation L P E) (index : Nat) (p : P) (seed : Nat)
    (ligands : Nat → L) (nf : Nat)
    (hterm : ∀ s, reaches k op index p (task_start op seed ligands) s →
      ∃ n, (attempt k op index p n s).isSome = true)
    (hmax : op.max_failures < SIZE_T_MOD) :
    ∃ fuel, (task k op fuel index p seed ligands nf).isSome = true := by
  obtain ⟨N, hN⟩ := retry_terminates op (attempt k op index p) index
    (reaches k op index p (task_start op seed ligands))
    (fun n m s r => attempt_mono k op index p n m s r)
    (fun n s r hI h hv => reaches.next s r n hI h hv) hterm hmax nf
    (task_start op seed ligands) (reaches.start)
  exact ⟨N, by rw [task_eq_retry]; exact hN N (le_refl _)⟩

/-- A returning `retry` loop has built at least one candidate, after those built before. -/
theorem retry_built_grows (op : operation L P E) (att : task_state L E → Option (task_state L E))
    (index : Nat)
    (heff : ∀ s r, att s = some r → r.built = s.built ++ [r.ligands index] ∧ r.saved = s.saved)
    (j nf : Nat) (s : task_state L E) (o : outcome L E) (h : retry op att index j nf s = some o) :
    s.built <+: o.state.built ∧ s.built.length < o.state.built.length := by
  obtain ⟨rej, c, h1, -⟩ := retry_post op att index heff j nf s o h
  constructor
  · exact ⟨rej ++ [c], by rw [h1]; simp⟩
  · rw [h1]; simp

/-- Two runs of the `retry` loop from the same state, with different counter
values and different amounts of fuel: the candidates built by one are a prefix
of those built by the other, and when they built equally many they end in the
same state. -/
theorem retry_built_agree (op : operation L P E) (att : Nat → task_state L E → Option (task_state L E))
    (index : Nat)
    (hmono : ∀ n m s r, n ≤ m → att n s = some r → att m s = some r)
    (heff : ∀ n s r, att n s = some r → r.built = s.built ++ [r.ligands index] ∧ r.saved = s.saved)
    (n1 n2 : Nat) :
    ∀ j1 j2 nf1 nf2 (s : task_state L E) (o1 o2 : outcome L E),
    retry op (att n1) index j1 nf1 s = some o1 → retry op (att n2) index j2 nf2 s = some o2 →
    (o1.state.built <+: o2.state.built ∨ o2.state.built <+: o1.state.built) ∧
    (o1.state.built.length = o2.state.built.length → o1.state = o2.state) := by
  intro j1
  induction j1 with
  | zero => intro j2 nf1 nf2 s o1 o2 h1 _; simp [retry] at h1
  | succ j1 ih =>
    intro j2 nf1 nf2 s o1 o2 h1 h2
    cases j2 with
    | zero => simp [retry] at h2
    | succ j2 =>
      unfold retry at h1 h2
      split at h1
      · simp at h1
      · rename_i s1 hatt1
        split at h2
        · simp at h2
        · rename_i s2 hatt2
          have e : s2 = s1 := by
            have a := hmono n1 (max n1 n2) s s1 (le_max_left _ _) hatt1
            have b := hmono n2 (max n1 n2) s s2 (le_max_right _ _) hatt2
            rw [a] at b
            exact (Option.some.inj b).symm
          subst e
          by_cases hv : op.v (s2.ligands index) = true
          · rw [if_pos hv, Option.some.injEq] at h1 h2
            subst h1; subst h2
            exact ⟨Or.inl (List.prefix_refl _), fun _ => rfl⟩
          · rw [if_neg hv] at h1 h2
            by_cases hc1 : size_t_incr nf1 < op.max_failures
            · rw [if_pos hc1] at h1
              by_cases hc2 : size_t_incr nf2 < op.max_failures
              · rw [if_pos hc2] at h2
                exact ih j2 _ _ s2 o1 o2 h1 h2
              · rw [if_neg hc2, Option.some.injEq] at h2
                subst h2
                have g := retry_built_grows op (att n1) index (heff n1) _ _ _ _ h1
                exact ⟨Or.inr g.1, fun hl => absurd hl (by simp only; omega)⟩
            · rw [if_neg hc1, Option.some.injEq] at h1
              subst h1
              by_cases hc2 : size_t_incr nf2 < op.max_failures
              · rw [if_pos hc2] at h2
                have g := retry_built_grows op (att n2) index (heff n2) _ _ _ _ h2
                exact ⟨Or.inl g.1, fun hl => absurd hl (by simp only; omega)⟩
              · rw [if_neg hc2, Option.some.injEq] at h2
                subst h2
                exact ⟨Or.inl (List.prefix_refl _), fun _ => rfl⟩

/-! ## Theorems: the tasks of operation.cpp -/

/-- Claim C1, evaluated at its failing input.  On the population `ex_ligands`
with three elitists, destination slot 3 and seed 1, the first parent drawn is
slot 1, which fails every feasibility guard; the re-draw assigns through the
reference, so at return the elite slot 1 (and in `crossover_task` also slot 2)
holds a copy of another ligand instead of the ligand it held at the start. -/
theorem elite_slot_overwritten_on_redraw :
    ex_ligands 1 = ⟨101, 0, 0⟩ ∧ ex_ligands 2 = ⟨102, 1, 2⟩ ∧
    (addition_task (ex_operation 3 1 (fun _ => true)) 3 3 7 1 ex_ligands 0).map
      (fun o => o.state.ligands 1) = some ⟨100, 2, 4⟩ ∧
    (subtraction_task (ex_operation 3 1 (fun _ => true)) 3 3 7 1 ex_ligands 0).map
      (fun o => o.state.ligands 1) = some ⟨102, 1, 2⟩ ∧
    (crossover_task (ex_operation 3 1 (fun _ => true)) 3 3 7 1 ex_ligands 0).map
      (fun o => (o.state.ligands 1, o.state.ligands 2)) = some (⟨100, 2, 4⟩, ⟨100, 2, 4⟩) := by
  decide

/-- Claim C2 fails as stated: with `max_failures = 0`, one elitist and a validator
that rejects everything, each task returns with its destination slot 3 holding
the rejected candidate it built, not the placeholder the slot held before. -/
theorem rejected_candidate_stays_in_slot :
    ex_ligands 3 = ⟨0, 0, 0⟩ ∧
    (addition_task (ex_operation 1 0 (fun _ => false)) 1 3 7 0 ex_ligands 0).map
      (fun o => (o.state.ligands 3, o.state.built, o.state.saved))
      = some (⟨7, 3, 3⟩, [⟨7, 3, 3⟩], []) ∧
    (subtraction_task (ex_operation 1 0 (fun _ => false)) 1 3 7 0 ex_ligands 0).map
      (fun o => (o.state.ligands 3, o.state.built, o.state.saved))
      = some (⟨7, 1, 5⟩, [⟨7, 1, 5⟩], []) ∧
    (crossover_task (ex_operation 1 0 (fun _ => false)) 1 3 7 0 ex_ligands 0).map
      (fun o => (o.state.ligands 3, o.state.built, o.state.saved))
      = some (⟨7, 1, 4⟩, [⟨7, 1, 4⟩], []) := by
  decide

/-- Claim C2 as amended: if the re-draw loop of every attempt the task can come to
returns, the task returns; and whenever it returns having had every candidate it
built rejected, the failure budget is exhausted, nothing was saved, and the
destination slot holds the last rejected candidate the task built.  With
`max_failures = 0` exactly one candidate was built. -/
theorem rejected_task_keeps_last_candidate (k : task_kind) (op : operation L P E) (index : Nat)
    (p : P) (seed : Nat) (ligands : Nat → L) (nf : Nat) :
    ((∀ s, reaches k op index p (task_start op seed ligands) s →
        ∃ n, (attempt k op index p n s).isSome = true) →
      op.max_failures < SIZE_T_MOD →
      ∃ fuel, (task k op fuel index p seed ligands nf).isSome = true) ∧
    ∀ fuel o, task k op fuel index p seed ligands nf = some o →
      (∀ c ∈ o.state.built, op.v c = false) →
      o.state.built.getLast? = some (o.state.ligands index) ∧
      op.v (o.state.ligands index) = false ∧
      o.state.saved = [] ∧
      ¬ o.num_failures < op.max_failures ∧
      (op.max_failures = 0 → o.state.built.length = 1) := by
  refine ⟨task_terminates k op index p seed ligands nf, fun fuel o h hrej => ?_⟩
  rw [task_eq_retry] at h
  obtain ⟨rej, c, h1, h2, h3, h4, h5⟩ := retry_post op (attempt k op index p fuel) index
    (fun s r => attempt_effect k op index p fuel s r) fuel nf _ o h
  have hb : o.state.built = rej ++ [c] := by simpa [task_start] using h1
  have hc : op.v c = false := hrej c (by rw [hb]; simp)
  rcases h5 with ⟨a, -, -⟩ | ⟨-, b, d, e⟩
  · rw [hc] at a; exact absurd a (by simp)
  · refine ⟨by rw [hb, h2]; simp, by rw [h2]; exact hc, by simpa [task_start] using b, e, fun h0 => ?_⟩
    cases rej with
    | nil => rw [hb]; rfl
    | cons x xs =>
      have := h4 0 (by simp)
      omega

/-- Claim C2 as amended, at a concrete input: `addition_task` with `max_failures = 0`,
one elitist and a validator that rejects everything, on `ex_ligands` with
destination slot 3. -/
theorem rejected_task_keeps_last_candidate_witness :
    (∃ fuel, (task .addition (ex_operation_unguarded 1 0 (fun _ => false)) fuel 3 7 0
        ex_ligands 0).isSome = true) ∧
    ∃ o, task .addition (ex_operation_unguarded 1 0 (fun _ => false)) 1 3 7 0 ex_ligands 0
        = some o ∧
      o.state.built.getLast? = some (o.state.ligands 3) ∧
      (ex_operation_unguarded 1 0 (fun _ => false)).v (o.state.ligands 3) = false ∧
      o.state.saved = [] ∧
      ¬ o.num_failures < (ex_operation_unguarded 1 0 (fun _ => false)).max_failures ∧
      ((ex_operation_unguarded 1 0 (fun _ => false)).max_failures = 0 →
        o.state.built.length = 1) :=
  ⟨(rejected_task_keeps_last_candidate .addition (ex_operation_unguarded 1 0 (fun _ => false))
      3 7 0 ex_ligands 0).1 (fun _ _ => ⟨0, rfl⟩) (by decide),
   _, rfl,
   (rejected_task_keeps_last_candidate .addition (ex_operation_unguarded 1 0 (fun _ => false))
      3 7 0 ex_ligands 0).2 1 _ rfl (fun _ _ => rfl)⟩

/-- Claim C3: if the re-draw loop of every attempt the task can come to returns,
the task returns; and whenever it returns having built a candidate the validator
accepts, that candidate is the last one it built, every candidate built before
it was rejected, the destination slot holds exactly that candidate, it is the one
ligand saved, and the failure counter was incremented once per rejected
candidate and not for the accepted one. -/
theorem task_stops_at_first_accepted (k : task_kind) (op : operation L P E) (index : Nat)
    (p : P) (seed : Nat) (ligands : Nat → L) (nf : Nat) :
    ((∀ s, reaches k op index p (task_start op seed ligands) s →
        ∃ n, (attempt k op index p n s).isSome = true) →
      op.max_failures < SIZE_T_MOD →
      ∃ fuel, (task k op fuel index p seed ligands nf).isSome = true) ∧
    ∀ fuel o, task k op fuel index p seed ligands nf = some o →
      (∃ c ∈ o.state.built, op.v c = true) →
      ∃ rejected c, o.state.built = rejected ++ [c] ∧
        (∀ r ∈ rejected, op.v r = false) ∧ op.v c = true ∧
        o.state.ligands index = c ∧ o.state.saved = [c] ∧
        o.num_failures = size_t_incr^[rejected.length] nf := by
  refine ⟨task_terminates k op index p seed ligands nf, fun fuel o h hacc => ?_⟩
  rw [task_eq_retry] at h
  obtain ⟨rej, c, h1, h2, h3, -, h5⟩ := retry_post op (attempt k op index p fuel) index
    (fun s r => attempt_effect k op index p fuel s r) fuel nf _ o h
  have hb : o.state.built = rej ++ [c] := by simpa [task_start] using h1
  rcases h5 with ⟨a, b, d⟩ | ⟨a, -, -, -⟩
  · exact ⟨rej, c, hb, h3, a, h2, by simpa [task_start] using b, d⟩
  · obtain ⟨x, hx, hvx⟩ := hacc
    rw [hb] at hx
    rcases List.mem_append.1 hx with m | m
    · rw [h3 x m] at hvx; exact absurd hvx (by simp)
    · rw [List.mem_singleton.1 m, a] at hvx; exact absurd hvx (by simp)

/-- Claim C3 at a concrete input: `subtraction_task` on `ex_ligands` with three
elitists, `max_failures = 2`, seed 0 and a validator that accepts ligands without
rotatable bonds; the first candidate is rejected, the second accepted. -/
theorem task_stops_at_first_accepted_witness :
    (∃ fuel, (task .subtraction
        (ex_operation_unguarded 3 2 (fun l => decide (l.num_rotatable_bonds = 0))) fuel 3 7 0
        ex_ligands 0).isSome = true) ∧
    ∃ o, task .subtraction
        (ex_operation_unguarded 3 2 (fun l => decide (l.num_rotatable_bonds = 0))) 2 3 7 0
        ex_ligands 0 = some o ∧
      o.state.built = [⟨7, 1, 5⟩, ⟨7, 0, 3⟩] ∧
      ∃ rejected c, o.state.built = rejected ++ [c] ∧
        (∀ r ∈ rejected,
          (ex_operation_unguarded 3 2 (fun l => decide (l.num_rotatable_bonds = 0))).v r = false) ∧
        (ex_operation_unguarded 3 2 (fun l => decide (l.num_rotatable_bonds = 0))).v c = true ∧
        o.state.ligands 3 = c ∧ o.state.saved = [c] ∧
        o.num_failures = size_t_incr^[rejected.length] 0 :=
  ⟨(task_stops_at_first_accepted .subtraction
      (ex_operation_unguarded 3 2 (fun l => decide (l.num_rotatable_bonds = 0))) 3 7 0
      ex_ligands 0).1 (fun _ _ => ⟨0, rfl⟩) (by decide),
   _, rfl, rfl,
   (task_stops_at_first_accepted .subtraction
      (ex_operation_unguarded 3 2 (fun l => decide (l.num_rotatable_bonds = 0))) 3 7 0
      ex_ligands 0).2 2 _ rfl ⟨⟨7, 0, 3⟩, by decide, rfl⟩⟩

/-- Claim C10 fails as stated: `subtraction_task` on the same seed, population and
validator, with `max_failures = 2`, started once with the failure counter at 0 and
once at 1.  The first run makes two attempts and ends with an accepted, saved
candidate in slot 3; the second makes one attempt and ends with a rejected one. -/
theorem attempts_depend_on_starting_counter :
    (subtraction_task (ex_operation 3 2 (fun l => decide (l.num_rotatable_bonds = 0)))
        2 3 7 0 ex_ligands 0).map
      (fun o => (o.state.built, o.state.saved, o.state.ligands 3))
      = some ([⟨7, 1, 5⟩, ⟨7, 0, 3⟩], [⟨7, 0, 3⟩], ⟨7, 0, 3⟩) ∧
    (subtraction_task (ex_operation 3 2 (fun l => decide (l.num_rotatable_bonds = 0)))
        2 3 7 0 ex_ligands 1).map
      (fun o => (o.state.built, o.state.saved, o.state.ligands 3))
      = some ([⟨7, 1, 5⟩], [], ⟨7, 1, 5⟩) := by
  decide

/-- Claim C10 as amended: the failure counter is a member that the task reads and
increments without resetting it, and it decides only when the loop stops.  If the
re-draw loop of every attempt the task can come to returns, the task returns from
every starting counter value; and two returning runs that differ only in the
starting counter value (and the fuel) build the same candidates in the same order
up to the point where the first of them stops: the candidates of one run are a
prefix of the candidates of the other, and when both build equally many they end
in the same state. -/
theorem attempts_agree_until_budget_stops (k : task_kind) (op : operation L P E) (index : Nat)
    (p : P) (seed : Nat) (ligands : Nat → L) :
    ((∀ s, reaches k op index p (task_start op seed ligands) s →
        ∃ n, (attempt k op index p n s).isSome = true) →
      op.max_failures < SIZE_T_MOD →
      ∀ nf, ∃ fuel, (task k op fuel index p seed ligands nf).isSome = true) ∧
    ∀ fuel1 fuel2 nf1 nf2 o1 o2,
      task k op fuel1 index p seed ligands nf1 = some o1 →
      task k op fuel2 index p seed ligands nf2 = some o2 →
      (o1.state.built <+: o2.state.built ∨ o2.state.built <+: o1.state.built) ∧
      (o1.state.built.length = o2.state.built.length → o1.state = o2.state) := by
  refine ⟨fun hterm hmax nf => task_terminates k op index p seed ligands nf hterm hmax,
    fun fuel1 fuel2 nf1 nf2 o1 o2 h1 h2 => ?_⟩
  rw [task_eq_retry] at h1 h2
  exact retry_built_agree op (attempt k op index p) index
    (fun n m s r => attempt_mono k op index p n m s r)
    (fun n s r => attempt_effect k op index p n s r) fuel1 fuel2 fuel1 fuel2 nf1 nf2 _ o1 o2 h1 h2

/-- Claim C10 as amended, at a concrete input: `subtraction_task` on `ex_ligands`
with `max_failures = 2`, started with the counter at 0 (two candidates) and at 1
(one candidate). -/
theorem attempts_agree_until_budget_stops_witness :
    (∀ nf, ∃ fuel, (task .subtraction
        (ex_operation_unguarded 3 2 (fun l => decide (l.num_rotatable_bonds = 0))) fuel 3 7 0
        ex_ligands nf).isSome = true) ∧
    ∃ o1 o2,
      task .subtraction (ex_operation_unguarded 3 2 (fun l => decide (l.num_rotatable_bonds = 0)))
        2 3 7 0 ex_ligands 0 = some o1 ∧
      task .subtraction (ex_operation_unguarded 3 2 (fun l => decide (l.num_rotatable_bonds = 0)))
        2 3 7 0 ex_ligands 1 = some o2 ∧
      o1.state.built = [⟨7, 1, 5⟩, ⟨7, 0, 3⟩] ∧ o2.state.built = [⟨7, 1, 5⟩] ∧
      (o1.state.built <+: o2.state.built ∨ o2.state.built <+: o1.state.built) ∧
      (o1.state.built.length = o2.state.built.length → o1.state = o2.state) :=
  ⟨(attempts_agree_until_budget_stops .subtraction
      (ex_operation_unguarded 3 2 (fun l => decide (l.num_rotatable_bonds = 0))) 3 7 0
      ex_ligands).1 (fun _ _ => ⟨0, rfl⟩) (by decide),
   _, _, rfl, rfl, rfl, rfl,
   (attempts_agree_until_budget_stops .subtraction
      (ex_operation_unguarded 3 2 (fun l => decide (l.num_rotatable_bonds = 0))) 3 7 0
      ex_ligands).2 2 2 0 1 _ _ rfl rfl⟩

/-! ## Lemmas and theorems: determinism, attempt counts and site ranges -/

/-- Two runs of the `retry` loop from the same state and the same counter value
return the same outcome, however much fuel each was given. -/
theorem retry_fuel_irrelevant (op : operation L P E)
    (att : Nat → task_state L E → Option (task_state L E)) (index : Nat)
    (hmono : ∀ n m s r, n ≤ m → att n s = some r → att m s = some r) (n1 n2 : Nat) :
    ∀ j1 j2 nf (s : task_state L E) (o1 o2 : outcome L E),
    retry op (att n1) index j1 nf s = some o1 → retry op (att n2) index j2 nf s = some o2 →
    o1 = o2 := by
  intro j1
  induction j1 with
  | zero => intro j2 nf s o1 o2 h1 _; simp [retry] at h1
  | succ j1 ih =>
    intro j2 nf s o1 o2 h1 h2
    cases j2 with
    | zero => simp [retry] at h2
    | succ j2 =>
      unfold retry at h1 h2
      split at h1
      · simp at h1
      · rename_i s1 hatt1
        split at h2
        · simp at h2
        · rename_i s2 hatt2
          have e : s2 = s1 := by
            have a := hmono n1 (max n1 n2) s s1 (le_max_left _ _) hatt1
            have b := hmono n2 (max n1 n2) s s2 (le_max_right _ _) hatt2
            rw [a] at b
            exact (Option.some.inj b).symm
          subst e
          by_cases hv : op.v (s2.ligands index) = true
          · rw [if_pos hv, Option.some.injEq] at h1 h2
            rw [← h1, ← h2]
          · rw [if_neg hv] at h1 h2
            by_cases hc : size_t_incr nf < op.max_failures
            · rw [if_pos hc] at h1 h2
              exact ih j2 _ s2 o1 o2 h1 h2
            · rw [if_neg hc, Option.some.injEq] at h1 h2
              rw [← h1, ← h2]

/-- While the counter stays below the bound `m < SIZE_T_MOD` after each of the
first `n` increments, `j ≤ n + 1` increments from `f` add exactly `j`. -/
theorem size_t_incr_iterate (m n f : Nat) (hf : f + 1 < SIZE_T_MOD) (hm : m < SIZE_T_MOD)
    (hlt : ∀ i, i < n → size_t_incr^[i + 1] f < m) :
    ∀ j, j ≤ n + 1 → size_t_incr^[j] f = f + j := by
  intro j
  induction j with
  | zero => intro _; rfl
  | succ j ih =>
    intro hj
    rw [Function.iterate_succ_apply', ih (by omega)]
    unfold size_t_incr
    apply Nat.mod_eq_of_lt
    cases j with
    | zero => simpa using hf
    | succ i =>
      have h1 := hlt i (by omega)
      rw [ih (by omega)] at h1
      omega

/-- A returning `retry` loop whose candidates were all rejected, started with the
counter at `nf`: the number of candidates built and the final counter value,
both when the first increment does not wrap and when it does. -/
theorem retry_rejected_count (op : operation L P E)
    (att : task_state L E → Option (task_state L E)) (index : Nat)
    (heff : ∀ s r, att s = some r → r.built = s.built ++ [r.ligands index] ∧ r.saved = s.saved)
    (hmax : op.max_failures < SIZE_T_MOD)
    (j nf : Nat) (s : task_state L E) (o : outcome L E) (hs : s.built = [])
    (h : retry op att index j nf s = some o) (hrej : ∀ c ∈ o.state.built, op.v c = false) :
    (nf + 1 < SIZE_T_MOD →
      o.state.built.length = max 1 (op.max_failures - nf) ∧
      o.num_failures = nf + o.state.built.length) ∧
    (nf + 1 = SIZE_T_MOD →
      o.state.built.length = 1 + op.max_failures ∧ o.num_failures = op.max_failures) := by
  obtain ⟨rej, c, h1, -, -, h4, h5⟩ := retry_post op att index heff j nf s o h
  have hb : o.state.built = rej ++ [c] := by rw [h1, hs]; simp
  have hlen : o.state.built.length = rej.length + 1 := by rw [hb]; simp
  have hc : op.v c = false := hrej c (by rw [hb]; simp)
  rcases h5 with ⟨a, -, -⟩ | ⟨-, -, d, e⟩
  · rw [hc] at a; exact absurd a (by simp)
  · constructor
    · intro hf
      have hit := size_t_incr_iterate op.max_failures rej.length nf hf hmax h4
      have hfin : o.num_failures = nf + (rej.length + 1) := by
        rw [d]; exact hit _ (le_refl _)
      have hprev : rej.length ≠ 0 → nf + rej.length < op.max_failures := by
        intro hne
        have := h4 (rej.length - 1) (by omega)
        rw [hit _ (by omega)] at this
        omega
      rw [hlen]
      refine ⟨?_, hfin⟩
      by_cases hz : rej.length = 0
      · rw [hz]; rw [hz] at hfin; omega
      · have := hprev hz; omega
    · intro hf
      have h0 : size_t_incr nf = 0 := by
        unfold size_t_incr; rw [hf]; exact Nat.mod_self _
      have hpos : (0 : Nat) + 1 < SIZE_T_MOD := by unfold SIZE_T_MOD; norm_num
      have hshift : ∀ i, size_t_incr^[i + 1] nf = size_t_incr^[i] 0 := by
        intro i; rw [Function.iterate_succ_apply, h0]
      have hit := size_t_incr_iterate op.max_failures (rej.length - 1) 0 hpos hmax
        (fun i hi => by
          have := h4 (i + 1) (by omega)
          rwa [hshift] at this)
      have hfin : o.num_failures = rej.length := by
        rw [d, hshift, hit _ (by omega)]; simp
      rw [hlen]
      by_cases hz : rej.length = 0
      · rw [hz] at hfin ⊢; omega
      · have := h4 (rej.length - 1) (by omega)
        rw [hshift, hit _ (by omega)] at this
        omega

@[simp]
theorem draw_sites (op : operation L P E) (lo hi : Nat) (s : task_state L E) :
    (draw op lo hi s).2.sites = s.sites := rfl
@[simp]
theorem assign_through_sites (s : task_state L E) (i j : Nat) :
    (assign_through s i j).sites = s.sites := rfl
@[simp]
theorem replace_sites (s : task_state L E) (i : Nat) (c : L) (xs : List (L × Nat)) :
    (replace s i c xs).sites = s.sites ++ xs := rfl

/-- Subtracting one from a positive `size_t` value gives a smaller value. -/
theorem size_t_sub_one_lt (m : Nat) (h : 1 ≤ m) : size_t_sub m 1 < m := by
  unfold size_t_sub
  have h1 : 1 % SIZE_T_MOD = 1 := by unfold SIZE_T_MOD; norm_num
  have h2 : m + SIZE_T_MOD - 1 = (m - 1) + SIZE_T_MOD := by omega
  rw [h1, h2, Nat.add_mod_right]
  exact lt_of_le_of_lt (Nat.mod_le _ _) (by omega)

/-- A returning re-draw loop of `addition_task` leaves both parents feasible. -/
theorem addition_redraw_guard (op : operation L P E) : ∀ n i1 l2 (s : task_state L E) r,
    addition_redraw op n i1 l2 s = some r →
    op.addition_feasible (r.2.ligands i1) = true ∧ op.addition_feasible r.1 = true ∧
    r.2.sites = s.sites := by
  intro n
  induction n with
  | zero =>
    intro i1 l2 s r h
    unfold addition_redraw at h
    split at h
    · rename_i hc
      simp only [Option.some.injEq] at h; subst h
      simpa using hc
    · simp at h
  | succ n ih =>
    intro i1 l2 s r h
    unfold addition_redraw at h
    split at h
    · rename_i hc
      simp only [Option.some.injEq] at h; subst h
      simpa using hc
    · have := ih _ _ _ _ h
      simpa using this

/-- A returning re-draw loop of `subtraction_task` leaves the parent feasible. -/
theorem subtraction_redraw_guard (op : operation L P E) : ∀ n i1 (s : task_state L E) r,
    subtraction_redraw op n i1 s = some r →
    op.subtraction_feasible (r.ligands i1) = true ∧ r.sites = s.sites := by
  intro n
  induction n with
  | zero =>
    intro i1 s r h
    unfold subtraction_redraw at h
    split at h
    · rename_i hc
      simp only [Option.some.injEq] at h; subst h
      simpa using hc
    · simp at h
  | succ n ih =>
    intro i1 s r h
    unfold subtraction_redraw at h
    split at h
    · rename_i hc
      simp only [Option.some.injEq] at h; subst h
      simpa using hc
    · have := ih _ _ _ h
      simpa using this

/-- A returning re-draw loop of `crossover_task` leaves both parents feasible. -/
theorem crossover_redraw_guard (op : operation L P E) : ∀ n i1 i2 (s : task_state L E) r,
    crossover_redraw op n i1 i2 s = some r →
    op.crossover_feasible (r.ligands i1) = true ∧ op.crossover_feasible (r.ligands i2) = true ∧
    r.sites = s.sites := by
  intro n
  induction n with
  | zero =>
    intro i1 i2 s r h
    unfold crossover_redraw at h
    split at h
    · rename_i hc
      simp only [Option.some.injEq] at h; subst h
      simpa using hc
    · simp at h
  | succ n ih =>
    intro i1 i2 s r h
    unfold crossover_redraw at h
    split at h
    · rename_i hc
      simp only [Option.some.injEq] at h; subst h
      simpa using hc
    · have := ih _ _ _ _ h
      simpa using this

/-- The site indices a loop body passes to its operator lie in the legal range of
their parents, when a passed guard means a non-empty range and the generator
keeps to its bounds. -/
theorem attempt_sites (k : task_kind) (op : operation L P E) (index : Nat) (p : P) (n : Nat)
    (hgen : ∀ lo hi e, lo ≤ hi →
      lo ≤ (op.uniform_int lo hi e).1 ∧ (op.uniform_int lo hi e).1 ≤ hi)
    (hadd : ∀ l, op.addition_feasible l = true → 1 ≤ op.mutable_atoms_size l)
    (hsub : ∀ l, op.subtraction_feasible l = true → 1 ≤ op.num_rotatable_bonds l)
    (hcro : ∀ l, op.crossover_feasible l = true → 1 ≤ op.num_rotatable_bonds l)
    (s r : task_state L E) (h : attempt k op index p n s = some r) :
    ∃ new, r.sites = s.sites ++ new ∧ new ≠ [] ∧ ∀ x ∈ new, site_in_range k op x := by
  cases k
  · simp only [attempt, addition_attempt] at h
    split at h
    · simp at h
    · rename_i l2 s3 heq
      obtain ⟨g1, g2, g3⟩ := addition_redraw_guard op _ _ _ _ _ heq
      simp only [Option.some.injEq] at h
      subst h
      refine ⟨_, by simp only [replace_sites, draw_sites]; rw [g3]; rfl, by simp, ?_⟩
      intro x hx
      simp only [List.mem_cons, List.mem_singleton, List.not_mem_nil, or_false] at hx
      rcases hx with e | e
      · subst e
        simp only [site_in_range]
        exact lt_of_le_of_lt (hgen 0 _ _ (Nat.zero_le _)).2 (size_t_sub_one_lt _ (hadd _ g1))
      · subst e
        simp only [site_in_range]
        exact lt_of_le_of_lt (hgen 0 _ _ (Nat.zero_le _)).2 (size_t_sub_one_lt _ (hadd _ g2))
  · simp only [attempt, subtraction_attempt] at h
    split at h
    · simp at h
    · rename_i s2 heq
      obtain ⟨g1, g3⟩ := subtraction_redraw_guard op _ _ _ _ heq
      simp only [Option.some.injEq] at h
      subst h
      refine ⟨_, by simp only [replace_sites, draw_sites]; rw [g3]; rfl, by simp, ?_⟩
      intro x hx
      simp only [List.mem_singleton] at hx
      subst hx
      simp only [site_in_range]
      exact hgen 1 _ _ (hsub _ g1)
  · simp only [attempt, crossover_attempt] at h
    split at h
    · simp at h
    · rename_i s3 heq
      obtain ⟨g1, g2, g3⟩ := crossover_redraw_guard op _ _ _ _ _ heq
      simp only [Option.some.injEq] at h
      subst h
      refine ⟨_, by simp only [replace_sites, draw_sites]; rw [g3]; rfl, by simp, ?_⟩
      intro x hx
      simp only [List.mem_cons, List.mem_singleton, List.not_mem_nil, or_false] at hx
      rcases hx with e | e
      · subst e
        simp only [site_in_range]
        exact hgen 1 _ _ (hcro _ g1)
      · subst e
        simp only [site_in_range]
        exact hgen 1 _ _ (hcro _ g2)

/-- A property of the recorded sites that every loop body preserves holds of the
sites of a returning `retry` loop, which are not empty. -/
theorem retry_sites (op : operation L P E) (att : task_state L E → Option (task_state L E))
    (index : Nat) (Q : L × Nat → Prop)
    (hatt : ∀ s r, att s = some r →
      ∃ new, r.sites = s.sites ++ new ∧ new ≠ [] ∧ ∀ x ∈ new, Q x) :
    ∀ j nf (s : task_state L E) (o : outcome L E), retry op att index j nf s = some o →
    (∀ x ∈ s.sites, Q x) → o.state.sites ≠ [] ∧ ∀ x ∈ o.state.sites, Q x := by
  intro j
  induction j with
  | zero => intro nf s o h; simp [retry] at h
  | succ j ih =>
    intro nf s o h hs
    unfold retry at h
    split at h
    · simp at h
    · rename_i s1 h1
      obtain ⟨new, e, hne, hq⟩ := hatt s s1 h1
      have hs1 : ∀ x ∈ s1.sites, Q x := by
        intro x hx
        rw [e] at hx
        rcases List.mem_append.1 hx with m | m
        · exact hs x m
        · exact hq x m
      have hne1 : s1.sites ≠ [] := by rw [e]; simp [hne]
      by_cases hv : op.v (s1.ligands index) = true
      · rw [if_pos hv, Option.some.injEq] at h
        subst h
        exact ⟨hne1, hs1⟩
      · rw [if_neg hv] at h
        by_cases hc : size_t_incr nf < op.max_failures
        · rw [if_pos hc] at h
          exact ih _ _ _ h hs1
        · rw [if_neg hc, Option.some.injEq] at h
          subst h
          exact ⟨hne1, hs1⟩

/-- The stand-in generator keeps to its closed bounds. -/
theorem ex_uniform_int_bounds (lo hi e : Nat) (h : lo ≤ hi) :
    lo ≤ (ex_uniform_int lo hi e).1 ∧ (ex_uniform_int lo hi e).1 ≤ hi := by
  have := Nat.mod_lt e (show 0 < hi - lo + 1 by omega)
  simp only [ex_uniform_int]
  omega

/-- Replaying over two lists of ranges in a row is replaying over the first and then,
from the engine reached, over the second. -/
theorem replay_append (op : operation L P E) : ∀ (rs ext : List (Nat × Nat)) (e : E),
    replay op (rs ++ ext) e
      = ((replay op rs e).1 ++ (replay op ext (replay op rs e).2).1,
         (replay op ext (replay op rs e).2).2) := by
  intro rs
  induction rs with
  | nil => intro ext e; simp [replay]
  | cons r rs ih => intro ext e; simp [replay, ih]

/-- Replaying draws once per range. -/
theorem replay_length (op : operation L P E) : ∀ (rs : List (Nat × Nat)) (e : E),
    (replay op rs e).1.length = rs.length := by
  intro rs
  induction rs with
  | nil => intro e; simp [replay]
  | cons r rs ih => intro e; simp [replay, ih]

/-- No draw: the draws and the engine are unchanged. -/
theorem draws_from_refl (op : operation L P E) (s r : task_state L E)
    (hd : r.draws = s.draws) (he : r.eng = s.eng) : draws_from op [] s r := by
  simp [draws_from, replay, hd, he]

/-- Two stretches of draws in a row. -/
theorem draws_from_trans (op : operation L P E) (a b : List (Nat × Nat))
    (s r t : task_state L E) (h1 : draws_from op a s r) (h2 : draws_from op b r t) :
    draws_from op (a ++ b) s t := by
  obtain ⟨d1, e1⟩ := h1
  obtain ⟨d2, e2⟩ := h2
  rw [draws_from, replay_append]
  constructor
  · rw [d2, d1, e1, List.append_assoc]
  · rw [e2, e1]

/-- One call of a generator is one draw from its range. -/
theorem draws_from_draw (op : operation L P E) (lo hi : Nat) (s : task_state L E) :
    draws_from op [(lo, hi)] s (draw op lo hi s).2 := by
  simp [draws_from, replay, draw]

/-- One draw after a stretch of draws. -/
theorem draws_from_snoc (op : operation L P E) (a : List (Nat × Nat)) (lo hi : Nat)
    (s r : task_state L E) (h : draws_from op a s r) :
    draws_from op (a ++ [(lo, hi)]) s (draw op lo hi r).2 :=
  draws_from_trans op a [(lo, hi)] s r _ h (draws_from_draw op lo hi r)

/-- A change of the state that leaves the draws and the engine alone. -/
theorem draws_from_same (op : operation L P E) (a : List (Nat × Nat))
    (s r t : task_state L E) (h : draws_from op a s r) (hd : t.draws = r.draws)
    (he : t.eng = r.eng) : draws_from op a s t := by
  obtain ⟨d1, e1⟩ := h
  exact ⟨by rw [hd, d1], by rw [he, e1]⟩

/-- The re-draw loop of `addition_task` only adds generator draws. -/
theorem addition_redraw_draws (op : operation L P E) : ∀ n i1 l2 (s : task_state L E) r,
    addition_redraw op n i1 l2 s = some r → ∃ ext, draws_from op ext s r.2 := by
  intro n
  induction n with
  | zero =>
    intro i1 l2 s r h
    unfold addition_redraw at h
    split at h
    · simp only [Option.some.injEq] at h; subst h
      exact ⟨[], draws_from_refl op _ _ rfl rfl⟩
    · simp at h
  | succ n ih =>
    intro i1 l2 s r h
    unfold addition_redraw at h
    split at h
    · simp only [Option.some.injEq] at h; subst h
      exact ⟨[], draws_from_refl op _ _ rfl rfl⟩
    · obtain ⟨ext, hext⟩ := ih _ _ _ _ h
      refine ⟨([(0, size_t_sub op.num_elitists 1)] ++ [(0, size_t_sub op.num_fragments 1)]) ++ ext,
        draws_from_trans op _ _ s _ _ ?_ hext⟩
      exact draws_from_snoc op _ _ _ s _
        (draws_from_same op _ s _ _ (draws_from_draw op 0 (size_t_sub op.num_elitists 1) s) rfl rfl)

/-- The re-draw loop of `subtraction_task` only adds generator draws. -/
theorem subtraction_redraw_draws (op : operation L P E) : ∀ n i1 (s : task_state L E) r,
    subtraction_redraw op n i1 s = some r → ∃ ext, draws_from op ext s r := by
  intro n
  induction n with
  | zero =>
    intro i1 s r h
    unfold subtraction_redraw at h
    split at h
    · simp only [Option.some.injEq] at h; subst h
      exact ⟨[], draws_from_refl op _ _ rfl rfl⟩
    · simp at h
  | succ n ih =>
    intro i1 s r h
    unfold subtraction_redraw at h
    split at h
    · simp only [Option.some.injEq] at h; subst h
      exact ⟨[], draws_from_refl op _ _ rfl rfl⟩
    · obtain ⟨ext, hext⟩ := ih _ _ _ h
      exact ⟨[(0, size_t_sub op.num_elitists 1)] ++ ext, draws_from_trans op _ _ s _ _
        (draws_from_same op _ s _ _ (draws_from_draw op 0 (size_t_sub op.num_elitists 1) s)
          rfl rfl) hext⟩

/-- The re-draw loop of `crossover_task` only adds generator draws. -/
theorem crossover_redraw_draws (op : operation L P E) : ∀ n i1 i2 (s : task_state L E) r,
    crossover_redraw op n i1 i2 s = some r → ∃ ext, draws_from op ext s r := by
  intro n
  induction n with
  | zero =>
    intro i1 i2 s r h
    unfold crossover_redraw at h
    split at h
    · simp only [Option.some.injEq] at h; subst h
      exact ⟨[], draws_from_refl op _ _ rfl rfl⟩
    · simp at h
  | succ n ih =>
    intro i1 i2 s r h
    unfold crossover_redraw at h
    split at h
    · simp only [Option.some.injEq] at h; subst h
      exact ⟨[], draws_from_refl op _ _ rfl rfl⟩
    · obtain ⟨ext, hext⟩ := ih _ _ _ _ h
      refine ⟨([(0, size_t_sub op.num_elitists 1)] ++ [(0, size_t_sub op.num_elitists 1)]) ++ ext,
        draws_from_trans op _ _ s _ _ ?_ hext⟩
      exact draws_from_same op _ s _ _ (draws_from_snoc op _ _ _ s _
        (draws_from_same op _ s _ _ (draws_from_draw op 0 (size_t_sub op.num_elitists 1) s)
          rfl rfl)) rfl rfl

/-- Rewriting the list of ranges of a stretch of draws. -/
theorem draws_from_cons_of (op : operation L P E) (l : List (Nat × Nat)) (x : Nat × Nat)
    (ext : List (Nat × Nat)) (s r : task_state L E) (h : draws_from op l s r)
    (hl : l = x :: ext) : draws_from op (x :: ext) s r := hl ▸ h

/-- The draws of one run of a loop body: they start with the draw of the first
parent from the elitist range and are at least `draws_per_attempt k` many. -/
theorem attempt_draws (k : task_kind) (op : operation L P E) (index : Nat) (p : P) (n : Nat)
    (s r : task_state L E) (h : attempt k op index p n s = some r) :
    ∃ ext, draws_from op ((0, size_t_sub op.num_elitists 1) :: ext) s r ∧
      draws_per_attempt k ≤ 1 + ext.length := by
  cases k
  · simp only [attempt, addition_attempt] at h
    split at h
    · simp at h
    · rename_i l2 s3 heq
      obtain ⟨ext, hext⟩ := addition_redraw_draws op _ _ _ _ _ heq
      simp only [Option.some.injEq] at h
      subst h
      have h1 := draws_from_snoc op _ 0 (size_t_sub op.num_fragments 1) s _
        (draws_from_draw op 0 (size_t_sub op.num_elitists 1) s)
      have h2 := draws_from_trans op _ _ s _ _ h1 hext
      have h3 := draws_from_snoc op _ 0 (size_t_sub (op.mutable_atoms_size (s3.ligands
        (draw op 0 (size_t_sub op.num_elitists 1) s).1)) 1) s _ h2
      have h4 := draws_from_snoc op _ 0 (size_t_sub (op.mutable_atoms_size l2) 1) s _ h3
      exact ⟨_, draws_from_cons_of op _ _ _ s _ (draws_from_same op _ s _ _ h4 rfl rfl) rfl,
        by simp [draws_per_attempt]; omega⟩
  · simp only [attempt, subtraction_attempt] at h
    split at h
    · simp at h
    · rename_i s2 heq
      obtain ⟨ext, hext⟩ := subtraction_redraw_draws op _ _ _ _ heq
      simp only [Option.some.injEq] at h
      subst h
      have h2 := draws_from_trans op _ _ s _ _
        (draws_from_draw op 0 (size_t_sub op.num_elitists 1) s) hext
      have h3 := draws_from_snoc op _ 1 (op.num_rotatable_bonds (s2.ligands
        (draw op 0 (size_t_sub op.num_elitists 1) s).1)) s _ h2
      exact ⟨_, draws_from_cons_of op _ _ _ s _ (draws_from_same op _ s _ _ h3 rfl rfl) rfl,
        by simp [draws_per_attempt]; omega⟩
  · simp only [attempt, crossover_attempt] at h
    split at h
    · simp at h
    · rename_i s3 heq
      obtain ⟨ext, hext⟩ := crossover_redraw_draws op _ _ _ _ _ heq
      simp only [Option.some.injEq] at h
      subst h
      have h1 := draws_from_snoc op _ 0 (size_t_sub op.num_elitists 1) s _
        (draws_from_draw op 0 (size_t_sub op.num_elitists 1) s)
      have h2 := draws_from_trans op _ _ s _ _ h1 hext
      have h3 := draws_from_snoc op _ 1 (op.num_rotatable_bonds (s3.ligands
        (draw op 0 (size_t_sub op.num_elitists 1) s).1)) s _ h2
      have h4 := draws_from_snoc op _ 1 (op.num_rotatable_bonds (s3.ligands
        (draw op 0 (size_t_sub op.num_elitists 1)
          (draw op 0 (size_t_sub op.num_elitists 1) s).2).1)) s _ h3
      exact ⟨_, draws_from_cons_of op _ _ _ s _ (draws_from_same op _ s _ _ h4 rfl rfl) rfl,
        by simp [draws_per_attempt]; omega⟩

/-- The draws of a returning `retry` loop whose body draws first from the range
`first` and at least `c` times in all, and builds one candidate each time:
they continue the draws of the start state with generator values over ranges
beginning with `first`, and are at least `c` for every candidate built. -/
theorem retry_draws (op : operation L P E) (att : task_state L E → Option (task_state L E))
    (index : Nat) (first : Nat × Nat) (c : Nat)
    (heff : ∀ s r, att s = some r → r.built = s.built ++ [r.ligands index] ∧ r.saved = s.saved)
    (hatt : ∀ s r, att s = some r →
      ∃ ext, draws_from op (first :: ext) s r ∧ c ≤ 1 + ext.length) :
    ∀ j nf (s : task_state L E) (o : outcome L E), retry op att index j nf s = some o →
    ∃ ext, draws_from op (first :: ext) s o.state ∧
      c * o.state.built.length ≤ c * s.built.length + (1 + ext.length) := by
  intro j
  induction j with
  | zero => intro nf s o h; simp [retry] at h
  | succ j ih =>
    intro nf s o h
    unfold retry at h
    split at h
    · simp at h
    · rename_i s1 h1
      obtain ⟨ext1, hd1, hc1⟩ := hatt s s1 h1
      have hb1 : s1.built.length = s.built.length + 1 := by
        rw [(heff s s1 h1).1]; simp
      have hone : c * s1.built.length ≤ c * s.built.length + (1 + ext1.length) := by
        rw [hb1, Nat.mul_succ]; omega
      by_cases hv : op.v (s1.ligands index) = true
      · rw [if_pos hv, Option.some.injEq] at h
        subst h
        exact ⟨ext1, draws_from_same op _ s s1 _ hd1 rfl rfl, hone⟩
      · rw [if_neg hv] at h
        by_cases hc : size_t_incr nf < op.max_failures
        · rw [if_pos hc] at h
          obtain ⟨ext2, hd2, hc2⟩ := ih _ _ _ h
          refine ⟨ext1 ++ first :: ext2, ?_, ?_⟩
          · exact draws_from_trans op (first :: ext1) (first :: ext2) s s1 _ hd1 hd2
          · simp only [List.length_append, List.length_cons]
            omega
        · rw [if_neg hc, Option.some.injEq] at h
          subst h
          exact ⟨ext1, hd1, hone⟩

/-- The re-draw loop of `addition_task` does not consult the validator. -/
theorem addition_redraw_validator (op : operation L P E) (v2 : L → Bool) :
    ∀ n i1 l2 (s : task_state L E),
    addition_redraw { op with v := v2 } n i1 l2 s = addition_redraw op n i1 l2 s := by
  intro n
  induction n with
  | zero => intro i1 l2 s; rfl
  | succ n ih =>
    intro i1 l2 s
    unfold addition_redraw
    simp only [ih]
    rfl

/-- The re-draw loop of `subtraction_task` does not consult the validator. -/
theorem subtraction_redraw_validator (op : operation L P E) (v2 : L → Bool) :
    ∀ n i1 (s : task_state L E),
    subtraction_redraw { op with v := v2 } n i1 s = subtraction_redraw op n i1 s := by
  intro n
  induction n with
  | zero => intro i1 s; rfl
  | succ n ih =>
    intro i1 s
    unfold subtraction_redraw
    simp only [ih]
    rfl

/-- The re-draw loop of `crossover_task` does not consult the validator. -/
theorem crossover_redraw_validator (op : operation L P E) (v2 : L → Bool) :
    ∀ n i1 i2 (s : task_state L E),
    crossover_redraw { op with v := v2 } n i1 i2 s = crossover_redraw op n i1 i2 s := by
  intro n
  induction n with
  | zero => intro i1 i2 s; rfl
  | succ n ih =>
    intro i1 i2 s
    unfold crossover_redraw
    simp only [ih]
    rfl

/-- The loop body does not consult the validator. -/
theorem attempt_validator (k : task_kind) (op : operation L P E) (v2 : L → Bool) (index : Nat)
    (p : P) (n : Nat) (s : task_state L E) :
    attempt k { op with v := v2 } index p n s = attempt k op index p n s := by
  cases k
  · simp only [attempt, addition_attempt]
    rw [show addition_redraw { op with v := v2 } n = addition_redraw op n from
      funext fun i1 => funext fun l2 => funext fun s => addition_redraw_validator op v2 n i1 l2 s]
    rfl
  · simp only [attempt, subtraction_attempt]
    rw [show subtraction_redraw { op with v := v2 } n = subtraction_redraw op n from
      funext fun i1 => funext fun s => subtraction_redraw_validator op v2 n i1 s]
    rfl
  · simp only [attempt, crossover_attempt]
    rw [show crossover_redraw { op with v := v2 } n = crossover_redraw op n from
      funext fun i1 => funext fun i2 => funext fun s => crossover_redraw_validator op v2 n i1 i2 s]
    rfl

/-- A returning `retry` loop consults the validator on the candidates it built
and on nothing else: with another validator that gives the same answers on
these candidates the loop returns the same outcome. -/
theorem retry_validator (op : operation L P E) (v2 : L → Bool)
    (att : task_state L E → Option (task_state L E)) (index : Nat)
    (heff : ∀ s r, att s = some r → r.built = s.built ++ [r.ligands index] ∧ r.saved = s.saved) :
    ∀ j nf (s : task_state L E) (o : outcome L E), retry op att index j nf s = some o →
    (∀ c ∈ o.state.built, v2 c = op.v c) →
    retry { op with v := v2 } att index j nf s = some o := by
  intro j
  induction j with
  | zero => intro nf s o h; simp [retry] at h
  | succ j ih =>
    intro nf s o h hval
    unfold retry at h ⊢
    split at h
    · simp at h
    · rename_i s1 h1
      have hmem1 : s1.ligands index ∈ s1.built := by
        rw [(heff s s1 h1).1]; simp
      simp only [h1]
      by_cases hv : op.v (s1.ligands index) = true
      · rw [if_pos hv, Option.some.injEq] at h
        have hx : v2 (s1.ligands index) = true := by
          rw [hval _ (by rw [← h]; exact hmem1)]; exact hv
        rw [if_pos hx, h]
      · rw [if_neg hv] at h
        by_cases hc : size_t_incr nf < op.max_failures
        · rw [if_pos hc] at h
          have hg := (retry_built_grows op att index heff _ _ _ _ h).1
          have hx : ¬ v2 (s1.ligands index) = true := by
            rw [hval _ (hg.subset hmem1)]; exact hv
          rw [if_neg hx]
          have hc2 : size_t_incr nf < ({ op with v := v2 } : operation L P E).max_failures := hc
          rw [if_pos hc2]
          exact ih _ _ _ h hval
        · rw [if_neg hc, Option.some.injEq] at h
          have hx : ¬ v2 (s1.ligands index) = true := by
            rw [hval _ (by rw [← h]; exact hmem1)]; exact hv
          rw [if_neg hx]
          have hc2 : ¬ size_t_incr nf < ({ op with v := v2 } : operation L P E).max_failures := hc
          rw [if_neg hc2, h]

/-- Claim C11: determinism of seeding.  If the re-draw loop of every attempt the
task can come to returns, the task returns.  Take a returning run and a second
run on the same seed, slot index, path, starting failure count and fragment
list, on a population with the same contents, and with a validator that may be
another function but gives the same answers on the candidates the first run
built.  Then the second run returns and ends in the identical outcome, with
the identical sequence of draws and of sites, however much fuel it is given.
The draws are the values the generator yields, one after the other, from the
engine seeded with `seed`, over a list of ranges that begins with the elitist
range: the first draw is the elitist generator applied to `eng(seed)`, the
final engine is the engine after these draws, and every candidate built took
at least `draws_per_attempt k` draws. -/
theorem task_deterministic (k : task_kind) (op : operation L P E) (index : Nat)
    (p : P) (seed : Nat) (ligands1 ligands2 : Nat → L) (f : Nat) :
    ((∀ s, reaches k op index p (task_start op seed ligands1) s →
        ∃ n, (attempt k op index p n s).isSome = true) →
      op.max_failures < SIZE_T_MOD →
      ∃ fuel, (task k op fuel index p seed ligands1 f).isSome = true) ∧
    ∀ (v2 : L → Bool) fuel1 o1, (∀ i, ligands1 i = ligands2 i) →
      task k op fuel1 index p seed ligands1 f = some o1 →
      (∀ c ∈ o1.state.built, v2 c = op.v c) →
      task k { op with v := v2 } fuel1 index p seed ligands2 f = some o1 ∧
      (∀ fuel2 o2, task k { op with v := v2 } fuel2 index p seed ligands2 f = some o2 →
        o2 = o1 ∧ o2.state.draws = o1.state.draws ∧ o2.state.sites = o1.state.sites) ∧
      (∃ rs, replay op ((0, size_t_sub op.num_elitists 1) :: rs) (op.mt19937eng seed)
        = (o1.state.draws, o1.state.eng)) ∧
      o1.state.draws.head?
        = some (op.uniform_int 0 (size_t_sub op.num_elitists 1) (op.mt19937eng seed)).1 ∧
      draws_per_attempt k * o1.state.built.length ≤ o1.state.draws.length := by
  refine ⟨task_terminates k op index p seed ligands1 f, fun v2 fuel1 o1 hpop h1 hval => ?_⟩
  have e : ligands1 = ligands2 := funext hpop
  subst e
  have hrun2 : task k { op with v := v2 } fuel1 index p seed ligands1 f = some o1 := by
    rw [task_eq_retry] at h1 ⊢
    have hatt : attempt k { op with v := v2 } index p fuel1 = attempt k op index p fuel1 :=
      funext fun s => attempt_validator k op v2 index p fuel1 s
    rw [hatt]
    exact retry_validator op v2 (attempt k op index p fuel1) index
      (fun s r => attempt_effect k op index p fuel1 s r) fuel1 f _ o1 h1 hval
  refine ⟨hrun2, fun fuel2 o2 h2 => ?_, ?_⟩
  · have h2c := h2
    have h1c := hrun2
    rw [task_eq_retry] at h2c h1c
    have := retry_fuel_irrelevant { op with v := v2 } (attempt k { op with v := v2 } index p) index
      (fun n m s r => attempt_mono k { op with v := v2 } index p n m s r) fuel2 fuel1 fuel2 fuel1 f
      _ o2 o1 h2c h1c
    subst this
    exact ⟨rfl, rfl, rfl⟩
  · rw [task_eq_retry] at h1
    obtain ⟨ext, ⟨hd, he⟩, hcount⟩ := retry_draws op (attempt k op index p fuel1) index
      (0, size_t_sub op.num_elitists 1) (draws_per_attempt k)
      (fun s r => attempt_effect k op index p fuel1 s r)
      (fun s r => attempt_draws k op index p fuel1 s r) fuel1 f _ o1 h1
    have hd2 : o1.state.draws
        = (replay op ((0, size_t_sub op.num_elitists 1) :: ext) (op.mt19937eng seed)).1 := by
      simpa [task_start] using hd
    have he2 : o1.state.eng
        = (replay op ((0, size_t_sub op.num_elitists 1) :: ext) (op.mt19937eng seed)).2 := by
      simpa [task_start] using he
    refine ⟨⟨ext, ?_⟩, ?_, ?_⟩
    · rw [hd2, he2]
    · rw [hd2]; rfl
    · have hl := replay_length op ((0, size_t_sub op.num_elitists 1) :: ext) (op.mt19937eng seed)
      rw [← hd2] at hl
      simp only [task_start, List.length_nil, Nat.mul_zero, Nat.zero_add] at hcount
      rw [hl, List.length_cons]
      omega

/-- Claim C11 at a concrete input: `subtraction_task` on `ex_ligands` with seed 0
and a validator that rejects everything, against a second run with more fuel
and a validator that accepts only ligands stored under path 100, none of which
is built. -/
theorem task_deterministic_witness :
    ∃ o1,
      task .subtraction (ex_operation 3 2 (fun _ => false)) 2 3 7 0 ex_ligands 0 = some o1 ∧
      o1.state.draws = [0, 2, 2, 1] ∧ o1.state.built = [⟨7, 1, 5⟩, ⟨7, 0, 3⟩] ∧
      task .subtraction
        { ex_operation 3 2 (fun _ => false) with v := fun l => decide (l.path = 100) }
        2 3 7 0 ex_ligands 0 = some o1 ∧
      (∀ fuel2 o2, task .subtraction
          { ex_operation 3 2 (fun _ => false) with v := fun l => decide (l.path = 100) }
          fuel2 3 7 0 ex_ligands 0 = some o2 →
        o2 = o1 ∧ o2.state.draws = o1.state.draws ∧ o2.state.sites = o1.state.sites) ∧
      (∃ rs, replay (ex_operation 3 2 (fun _ => false))
          ((0, size_t_sub (ex_operation 3 2 (fun _ => false)).num_elitists 1) :: rs)
          ((ex_operation 3 2 (fun _ => false)).mt19937eng 0)
        = (o1.state.draws, o1.state.eng)) ∧
      o1.state.draws.head?
        = some ((ex_operation 3 2 (fun _ => false)).uniform_int 0
            (size_t_sub (ex_operation 3 2 (fun _ => false)).num_elitists 1)
            ((ex_operation 3 2 (fun _ => false)).mt19937eng 0)).1 ∧
      draws_per_attempt .subtraction * o1.state.built.length ≤ o1.state.draws.length :=
  ⟨_, rfl, rfl, rfl,
   (task_deterministic .subtraction (ex_operation 3 2 (fun _ => false)) 3 7 0 ex_ligands
      ex_ligands 0).2 (fun l => decide (l.path = 100)) 2 _ (fun _ => rfl) rfl (by decide)⟩

/-- Claim C13 fails as stated: `subtraction_task` with `max_failures = 1` and a
validator that rejects everything, started with the failure counter at the
largest `size_t` value.  The first increment wraps to 0, which is below
`max_failures`, so the task builds two candidates and leaves the counter at 1,
where the claim gives `max(1, max_failures - f) = 1` candidate. -/
theorem attempt_count_wraps_at_size_max :
    (subtraction_task (ex_operation 1 1 (fun _ => false)) 2 3 7 0 ex_ligands
        (SIZE_T_MOD - 1)).map (fun o => (o.state.built.length, o.num_failures)) = some (2, 1) ∧
    max 1 ((ex_operation 1 1 (fun _ => false)).max_failures - (SIZE_T_MOD - 1)) = 1 := by
  decide

/-- Claim C13 as amended: if the re-draw loop of every attempt the task can come to
returns, the task returns; and a returning task whose candidates were all
rejected, started with the failure counter at `f` below the largest `size_t`
value, has built exactly `max(1, max_failures - f)` candidates and leaves the
counter at `f` plus that number, so with `max_failures = 0` it has made exactly
one attempt.  Started at the largest `size_t` value, the counter wraps to 0 and
the task builds `1 + max_failures` candidates, leaving the counter at
`max_failures`. -/
theorem rejected_task_attempt_count (k : task_kind) (op : operation L P E) (index : Nat)
    (p : P) (seed : Nat) (ligands : Nat → L) (f : Nat) :
    ((∀ s, reaches k op index p (task_start op seed ligands) s →
        ∃ n, (attempt k op index p n s).isSome = true) →
      op.max_failures < SIZE_T_MOD →
      ∃ fuel, (task k op fuel index p seed ligands f).isSome = true) ∧
    ∀ fuel o, op.max_failures < SIZE_T_MOD →
      task k op fuel index p seed ligands f = some o →
      (∀ c ∈ o.state.built, op.v c = false) →
      (f + 1 < SIZE_T_MOD →
        o.state.built.length = max 1 (op.max_failures - f) ∧
        o.num_failures = f + o.state.built.length ∧
        (op.max_failures = 0 → o.state.built.length = 1)) ∧
      (f + 1 = SIZE_T_MOD →
        o.state.built.length = 1 + op.max_failures ∧ o.num_failures = op.max_failures) := by
  refine ⟨task_terminates k op index p seed ligands f, fun fuel o hmax h hrej => ?_⟩
  rw [task_eq_retry] at h
  obtain ⟨h1, h2⟩ := retry_rejected_count op (attempt k op index p fuel) index
    (fun s r => attempt_effect k op index p fuel s r) hmax fuel f _ o rfl h hrej
  refine ⟨fun hf => ?_, h2⟩
  obtain ⟨a, b⟩ := h1 hf
  exact ⟨a, b, fun h0 => by rw [a, h0]; simp⟩

/-- Claim C13 as amended, at concrete inputs: `addition_task` with a validator that
rejects everything, `max_failures = 3`, started with the counter at 1 (two
candidates, counter left at 3). -/
theorem rejected_task_attempt_count_witness :
    (∃ fuel, (task .addition (ex_operation_unguarded 1 3 (fun _ => false)) fuel 3 7 0
        ex_ligands 1).isSome = true) ∧
    ∃ o, task .addition (ex_operation_unguarded 1 3 (fun _ => false)) 2 3 7 0 ex_ligands 1
        = some o ∧
      o.state.built.length = 2 ∧ o.num_failures = 3 ∧
      (1 + 1 < SIZE_T_MOD →
        o.state.built.length
          = max 1 ((ex_operation_unguarded 1 3 (fun _ => false)).max_failures - 1) ∧
        o.num_failures = 1 + o.state.built.length ∧
        ((ex_operation_unguarded 1 3 (fun _ => false)).max_failures = 0 →
          o.state.built.length = 1)) :=
  ⟨(rejected_task_attempt_count .addition (ex_operation_unguarded 1 3 (fun _ => false))
      3 7 0 ex_ligands 1).1 (fun _ _ => ⟨0, rfl⟩) (by decide),
   _, rfl, rfl, rfl,
   ((rejected_task_attempt_count .addition (ex_operation_unguarded 1 3 (fun _ => false))
      3 7 0 ex_ligands 1).2 2 _ (by decide) rfl (fun _ _ => rfl)).1⟩

/-- Claim C14: when a passed feasibility guard means a non-empty range and the
generator keeps to its closed bounds, every site index that a returning task
passed to its operator lies in the legal range of the parent it was passed
with: below `mutable_atoms.size()` in `addition_task`, and within
`[1, num_rotatable_bonds]`, so never 0, in `subtraction_task` and
`crossover_task`.  At least one site was passed; and the task returns if the
re-draw loop of every attempt it can come to returns. -/
theorem site_indices_in_range (k : task_kind) (op : operation L P E) (index : Nat)
    (p : P) (seed : Nat) (ligands : Nat → L) (nf : Nat)
    (hgen : ∀ lo hi e, lo ≤ hi →
      lo ≤ (op.uniform_int lo hi e).1 ∧ (op.uniform_int lo hi e).1 ≤ hi)
    (hadd : ∀ l, op.addition_feasible l = true → 1 ≤ op.mutable_atoms_size l)
    (hsub : ∀ l, op.subtraction_feasible l = true → 1 ≤ op.num_rotatable_bonds l)
    (hcro : ∀ l, op.crossover_feasible l = true → 1 ≤ op.num_rotatable_bonds l) :
    ((∀ s, reaches k op index p (task_start op seed ligands) s →
        ∃ n, (attempt k op index p n s).isSome = true) →
      op.max_failures < SIZE_T_MOD →
      ∃ fuel, (task k op fuel index p seed ligands nf).isSome = true) ∧
    ∀ fuel o, task k op fuel index p seed ligands nf = some o →
      o.state.sites ≠ [] ∧ ∀ x ∈ o.state.sites, site_in_range k op x := by
  refine ⟨task_terminates k op index p seed ligands nf, fun fuel o h => ?_⟩
  rw [task_eq_retry] at h
  exact retry_sites op (attempt k op index p fuel) index (site_in_range k op)
    (fun s r => attempt_sites k op index p fuel hgen hadd hsub hcro s r) fuel nf _ o h
    (fun x hx => by simp [task_start] at hx)

/-- Claim C14 at a concrete input: `crossover_task` on `ex_ligands` with three
elitists and seed 1, whose first parent fails the guard and is re-drawn. -/
theorem site_indices_in_range_witness :
    ∃ o, task .crossover (ex_operation 3 1 (fun _ => true)) 3 3 7 1 ex_ligands 0 = some o ∧
      o.state.sites = [(⟨100, 2, 4⟩, 2), (⟨100, 2, 4⟩, 1)] ∧
      (o.state.sites ≠ [] ∧
        ∀ x ∈ o.state.sites, site_in_range .crossover (ex_operation 3 1 (fun _ => true)) x) :=
  ⟨_, rfl, rfl,
   (site_indices_in_range .crossover (ex_operation 3 1 (fun _ => true)) 3 7 1 ex_ligands 0
      ex_uniform_int_bounds (fun _ h => of_decide_eq_true h) (fun _ h => of_decide_eq_true h)
      (fun _ h => of_decide_eq_true h)).2 3 _ rfl⟩

end igrow
